import Mathlib

/-!
# gitea-migrate: a shallow embedding of `main.go`

The program walks `<root>/<org>/<repo>.git` and drives a forge's REST API.
Its two collaborators are outside the program: the forge (reached through
`net/http`) and the file system (reached through `ioutil.ReadDir`).  Both are
parameters of the model (`Env`): the forge is a deterministic state machine
that answers one request at a time, the file system a function from a path to
its listing.  Every function of the program becomes a function from the forge
state to a `Result`: how the call ended (`Outcome.ret` for a normal return,
`Outcome.fatal` for `log.Fatal`, which exits the process), the forge state
afterwards, and the events the call produced, in order.

Go strings are modelled by `String`; Go `int` by `Int` (no arithmetic is done
on the identifiers, so the width plays no role).  Log output is not modelled.
-/

namespace GiteaMigrate

/-! ## Data model -/

/-- Process-wide configuration (the package-level variables set from the
command line flags). -/
structure Config where
  debug : Bool := false
  giteaURL : String := ""
  giteaUsername : String := ""
  giteaPassword : String := ""
  sourcePath : String := ""
deriving DecidableEq, Repr

/-- Body of `POST /api/v1/repos/migrate`. -/
structure Migrate where
  CloneAddr : String := ""
  RepoName : String := ""
  UID : Int := 0
deriving DecidableEq, Repr

/-- The `owner` object inside a `RepoResponse`. -/
structure RepoOwner where
  AvatarURL : String := ""
  Email : String := ""
  FullName : String := ""
  ID : Int := 0
  Language : String := ""
  Login : String := ""
deriving DecidableEq, Repr

/-- The `permissions` object inside a `RepoResponse`. -/
structure RepoPermissions where
  Admin : Bool := false
  Pull : Bool := false
  Push : Bool := false
deriving DecidableEq, Repr

/-- Repository metadata as reported by the forge.  The default value of every
field is Go's zero value, so `({} : RepoResponse)` is `RepoResponse{}`. -/
structure RepoResponse where
  Archived : Bool := false
  CloneURL : String := ""
  CreatedAt : String := ""
  DefaultBranch : String := ""
  Description : String := ""
  Empty : Bool := false
  Fork : Bool := false
  ForksCount : Int := 0
  FullName : String := ""
  HTMLURL : String := ""
  ID : Int := 0
  Mirror : Bool := false
  Name : String := ""
  OpenIssuesCount : Int := 0
  Owner : RepoOwner := {}
  Permissions : RepoPermissions := {}
  Private : Bool := false
  Size : Int := 0
  SSHURL : String := ""
  StarsCount : Int := 0
  UpdatedAt : String := ""
  WatchersCount : Int := 0
  Website : String := ""
deriving DecidableEq, Repr

/-- Organization metadata as reported by the forge. -/
structure OrganizationResponse where
  AvatarURL : String := ""
  Description : String := ""
  FullName : String := ""
  ID : Int := 0
  Location : String := ""
  Username : String := ""
  Website : String := ""
deriving DecidableEq, Repr

/-- Body of `POST /api/v1/orgs`. -/
structure OrganizationRequest where
  Description : String := ""
  FullName : String := ""
  Location : String := ""
  Username : String := ""
  Website : String := ""
deriving DecidableEq, Repr

/-! ## The HTTP boundary -/

/-- The `input` values the program hands to `httpPost`.  `json.Marshal` cannot
fail on these two struct types and is injective on them, so the request body
is kept as the value itself rather than as its JSON bytes. -/
inductive Payload where
  | migrate (m : Migrate)
  | organization (o : OrganizationRequest)
deriving DecidableEq, Repr

/-- The two request methods the program uses. -/
inductive Method where
  | GET
  | POST
deriving DecidableEq, Repr

/-- A request as built by `httpGet` / `httpPost`: method, `giteaURL+uri`, the
basic-auth credentials, the content type (POST only) and the body (POST only). -/
structure Request where
  method : Method
  url : String
  username : String
  password : String
  contentType : Option String
  body : Option Payload
deriving DecidableEq, Repr

/-- What the client sees of a response: `resp.StatusCode`, `resp.Status`, the
bytes `ioutil.ReadAll(resp.Body)` returns and whether `ReadAll` also returned
an error (in which case `Body` holds what was read before it).  With `-debug`
a body that cannot be read never gets this far: `httputil.DumpResponse` fails
on it, which is the reply `fatal` below. -/
structure Response where
  StatusCode : Int
  Status : String
  Body : String
  ReadErr : Bool := false
deriving DecidableEq, Repr

/-- How the HTTP stack answers one call of the client.  `fatal`: one of the
client's own `log.Fatal` sites fired before the status check
(`http.NewRequest`, `http.DefaultClient.Do`, or with `-debug` one of the two
`httputil` dumps returned an error).  `response`: the client got a response
and reaches the status check. -/
inductive Reply where
  | fatal
  | response (resp : Response)
deriving DecidableEq, Repr

/-- An error of `encoding/json`.  None of that package's messages is the text
`404 Not Found`, which the structure records. -/
structure JsonError where
  msg : String
  ne404 : msg ≠ "404 Not Found"

instance : DecidableEq JsonError := fun a b =>
  match a, b with
  | ⟨m, _⟩, ⟨n, _⟩ =>
    if h : m = n then isTrue (by subst h; rfl)
    else isFalse (fun e => h (congrArg JsonError.msg e))

/-- The `error` values `httpGet` and `httpPost` return: the status error
`fmt.Errorf("%s", resp.Status)` or the error of `json.Unmarshal`. -/
inductive GoError where
  | status (line : String)
  | json (e : JsonError)
deriving DecidableEq

/-- The method `err.Error()`. -/
def GoError.Error : GoError → String
  | .status line => line
  | .json e => e.msg

/-- One entry of a directory listing (`os.FileInfo`): `Name()` and `IsDir()`. -/
structure FileInfo where
  Name : String
  IsDir : Bool
deriving DecidableEq, Repr

/-- The world outside the program.  `roundTrip` is the forge seen through
`net/http`: given its state and a request it gives the reply and its next
state.  `unmarshalRepo` / `unmarshalOrg` are `json.Unmarshal(b, output)` at the
two output types: from the bytes and the current value of `*output` they give
the new value of `*output` and the error, if any.  `readDir` is
`ioutil.ReadDir` (`none` when it returns an error). -/
structure Env (σ : Type) where
  roundTrip : σ → Request → Reply × σ
  unmarshalRepo : String → RepoResponse → RepoResponse × Option JsonError
  unmarshalOrg : String → OrganizationResponse → OrganizationResponse × Option JsonError
  readDir : String → Option (List FileInfo)

/-! ## Outcomes, events, results -/

/-- How a call ends: it returns a value, or `log.Fatal` exits the process. -/
inductive Outcome (α : Type) where
  | ret (a : α)
  | fatal
deriving DecidableEq, Repr

/-- What a run leaves behind.  `call path org name` marks an entry into
`processGitRepo` with these arguments; `http req reply` is one call of the
HTTP client with the answer it got. -/
inductive Event where
  | call (path org name : String)
  | http (req : Request) (reply : Reply)
deriving DecidableEq, Repr

/-- The result of running a piece of the program from a forge state. -/
structure Result (σ α : Type) where
  out : Outcome α
  forge : σ
  trace : List Event

/-- Sequencing: run `k` after `r` unless `r` ended the process. -/
def Result.andThen {σ α β : Type} (r : Result σ α) (k : α → σ → Result σ β) : Result σ β :=
  match r.out with
  | .fatal => ⟨.fatal, r.forge, r.trace⟩
  | .ret a => ⟨(k a r.forge).out, (k a r.forge).forge, r.trace ++ (k a r.forge).trace⟩

/-! ## The program -/

/-- The request `httpPost` sends for `uri` and `input`. -/
def postRequest (cfg : Config) (uri : String) (input : Payload) : Request :=
  { method := .POST, url := cfg.giteaURL ++ uri, username := cfg.giteaUsername,
    password := cfg.giteaPassword, contentType := some "application/json",
    body := some input }

/-- The request `httpGet` sends for `uri`. -/
def getRequest (cfg : Config) (uri : String) : Request :=
  { method := .GET, url := cfg.giteaURL ++ uri, username := cfg.giteaUsername,
    password := cfg.giteaPassword, contentType := none, body := none }

/-- The part of `httpPost` after the response has arrived (lines 130-134):
status check, then `ReadAll` (its error is dropped) and `json.Unmarshal`,
whose error is returned. -/
def postResult {α : Type} (unm : String → α → α × Option JsonError)
    (resp : Response) (output : α) : Option GoError × α :=
  if resp.StatusCode ≠ 201 then (some (.status resp.Status), output)
  else ((unm resp.Body output).2.map GoError.json, (unm resp.Body output).1)

/-- The part of `httpGet` after the response has arrived (lines 162-166):
`ReadAll` (its error is dropped), status check, `json.Unmarshal`, whose error
is returned. -/
def getResult {α : Type} (unm : String → α → α × Option JsonError)
    (resp : Response) (output : α) : Option GoError × α :=
  if resp.StatusCode ≠ 200 then (some (.status resp.Status), output)
  else ((unm resp.Body output).2.map GoError.json, (unm resp.Body output).1)

/-- `httpPost(uri, input, output)`: returns the error (if any) and the value
of `*output` afterwards. -/
def httpPost {σ α : Type} (cfg : Config) (env : Env σ)
    (unm : String → α → α × Option JsonError)
    (uri : String) (input : Payload) (output : α) (s : σ) : Result σ (Option GoError × α) :=
  match env.roundTrip s (postRequest cfg uri input) with
  | (.fatal, s') => ⟨.fatal, s', [.http (postRequest cfg uri input) .fatal]⟩
  | (.response resp, s') =>
    ⟨.ret (postResult unm resp output), s', [.http (postRequest cfg uri input) (.response resp)]⟩

/-- `httpGet(uri, output)`. -/
def httpGet {σ α : Type} (cfg : Config) (env : Env σ)
    (unm : String → α → α × Option JsonError)
    (uri : String) (output : α) (s : σ) : Result σ (Option GoError × α) :=
  match env.roundTrip s (getRequest cfg uri) with
  | (.fatal, s') => ⟨.fatal, s', [.http (getRequest cfg uri) .fatal]⟩
  | (.response resp, s') =>
    ⟨.ret (getResult unm resp output), s', [.http (getRequest cfg uri) (.response resp)]⟩

/-- The URI `fmt.Sprintf("/api/v1/repos/%s/%s", owner, name)`. -/
def repoURI (owner name : String) : String :=
  "/api/v1/repos/" ++ owner ++ "/" ++ name

/-- The URI `"/api/v1/orgs/"+name`. -/
def orgURI (name : String) : String :=
  "/api/v1/orgs/" ++ name

/-- `repo(owner, name)`. -/
def repo {σ : Type} (cfg : Config) (env : Env σ) (owner name : String) (s : σ) :
    Result σ RepoResponse :=
  (httpGet cfg env env.unmarshalRepo (repoURI owner name) ({} : RepoResponse) s).andThen
    fun res s1 =>
      match res with
      | (some err, _) =>
        if err.Error = "404 Not Found" then ⟨.ret {}, s1, []⟩
        else ⟨.fatal, s1, []⟩
      | (none, r) => ⟨.ret r, s1, []⟩

/-- `organization(name)`. -/
def organization {σ : Type} (cfg : Config) (env : Env σ) (name : String) (s : σ) :
    Result σ OrganizationResponse :=
  (httpGet cfg env env.unmarshalOrg (orgURI name) ({} : OrganizationResponse) s).andThen
    fun res s1 =>
      match res with
      | (some err, orgResp) =>
        if err.Error = "404 Not Found" then
          (httpPost cfg env env.unmarshalOrg "/api/v1/orgs"
              (.organization { Username := name }) orgResp s1).andThen
            fun res2 s2 =>
              match res2 with
              | (some _, _) => ⟨.fatal, s2, []⟩
              | (none, created) => ⟨.ret created, s2, []⟩
        else ⟨.fatal, s1, []⟩
      | (none, orgResp) => ⟨.ret orgResp, s1, []⟩

/-- `processGitRepo(path, org, name)`. -/
def processGitRepo {σ : Type} (cfg : Config) (env : Env σ) (path org name : String) (s : σ) :
    Result σ Unit :=
  (⟨.ret (), s, [.call path org name]⟩ : Result σ Unit).andThen fun _ s0 =>
    (repo cfg env org name s0).andThen fun r s1 =>
      if r.ID ≠ 0 then ⟨.ret (), s1, []⟩
      else
        (organization cfg env org s1).andThen fun o s2 =>
          (httpPost cfg env env.unmarshalRepo "/api/v1/repos/migrate"
              (.migrate { CloneAddr := path, RepoName := name, UID := o.ID })
              ({} : RepoResponse) s2).andThen
            fun res s3 =>
              match res with
              | (some _, _) => ⟨.fatal, s3, []⟩
              | (none, _) => ⟨.ret (), s3, []⟩

/-- `strings.HasSuffix(s, suffix)`:
`len(s) >= len(suffix) && s[len(s)-len(suffix):] == suffix`. -/
def HasSuffix (s suffix : String) : Bool :=
  decide (s.length ≥ suffix.length) && (s.data.drop (s.length - suffix.length) == suffix.data)

/-- The slice `s[:len(s)-4]`.  It is only taken of a name that ends in
`.git`, whose last four bytes are those four one-byte characters. -/
def dropLast4 (s : String) : String :=
  ⟨s.data.take (s.length - 4)⟩

/-- The loop `for _, file := range files` of `processOrg`. -/
def processOrgFiles {σ : Type} (cfg : Config) (env : Env σ) (path org : String) :
    List FileInfo → σ → Result σ Unit
  | [], s => ⟨.ret (), s, []⟩
  | file :: files, s =>
    if file.IsDir then
      if HasSuffix file.Name ".git" then
        (processGitRepo cfg env (path ++ "/" ++ file.Name) org (dropLast4 file.Name) s).andThen
          fun _ s1 => processOrgFiles cfg env path org files s1
      else ⟨.fatal, s, []⟩
    else processOrgFiles cfg env path org files s

/-- `processOrg(path, org)`. -/
def processOrg {σ : Type} (cfg : Config) (env : Env σ) (path org : String) (s : σ) :
    Result σ Unit :=
  match env.readDir path with
  | none => ⟨.fatal, s, []⟩
  | some files => processOrgFiles cfg env path org files s

/-- The loop `for _, file := range files` of `process`. -/
def processFiles {σ : Type} (cfg : Config) (env : Env σ) (path : String) :
    List FileInfo → σ → Result σ Unit
  | [], s => ⟨.ret (), s, []⟩
  | file :: files, s =>
    if file.IsDir then
      (processOrg cfg env (path ++ "/" ++ file.Name) file.Name s).andThen
        fun _ s1 => processFiles cfg env path files s1
    else processFiles cfg env path files s

/-- `process(path)`. -/
def process {σ : Type} (cfg : Config) (env : Env σ) (path : String) (s : σ) :
    Result σ Unit :=
  match env.readDir path with
  | none => ⟨.fatal, s, []⟩
  | some files => processFiles cfg env path files s

/-- `main()` after `flag.Parse()`: each missing flag is fatal, then the walk
starts at `sourcePath`. -/
def main {σ : Type} (cfg : Config) (env : Env σ) (s : σ) : Result σ Unit :=
  if cfg.sourcePath = "" then ⟨.fatal, s, []⟩
  else if cfg.giteaURL = "" then ⟨.fatal, s, []⟩
  else if cfg.giteaUsername = "" then ⟨.fatal, s, []⟩
  else if cfg.giteaPassword = "" then ⟨.fatal, s, []⟩
  else process cfg env cfg.sourcePath s

/-! ## Reading a trace -/

/-- The requests of a trace, in order. -/
def requests : List Event → List Request
  | [] => []
  | .call _ _ _ :: es => requests es
  | .http req _ :: es => req :: requests es

/-- The invocations of `processGitRepo` recorded in a trace, in order, as
`(path, org, name)`. -/
def calls : List Event → List (String × String × String)
  | [] => []
  | .call path org name :: es => (path, org, name) :: calls es
  | .http _ _ :: es => calls es

/-- The request is a POST of a migration request to the migrate endpoint. -/
def isMigrateRequest (cfg : Config) (req : Request) : Bool :=
  decide (req.method = .POST) && decide (req.url = cfg.giteaURL ++ "/api/v1/repos/migrate") &&
    match req.body with
    | some (.migrate _) => true
    | _ => false

/-- The event is a migrate POST. -/
def isMigrate (cfg : Config) : Event → Bool
  | .http req _ => isMigrateRequest cfg req
  | .call _ _ _ => false

/-- The event is a migrate POST that the forge answered with status 201. -/
def isMigrate201 (cfg : Config) : Event → Bool
  | .http req (.response resp) => isMigrateRequest cfg req && decide (resp.StatusCode = 201)
  | .http _ .fatal => false
  | .call _ _ _ => false

/-- The number of events satisfying `p` that a trace holds inside invocations
of `processGitRepo` for the pair `(org, name)`.  The flag tells whether the
events at the head of the trace belong to such an invocation. -/
def countFor (p : Event → Bool) (org name : String) : Bool → List Event → Nat
  | _, [] => 0
  | _, .call _ o n :: es => countFor p org name (decide (o = org) && decide (n = name)) es
  | cur, .http req reply :: es =>
    (if cur && p (.http req reply) then 1 else 0) + countFor p org name cur es

/-- The call ended by returning the error `404 Not Found`. -/
def failed404 {α : Type} : Outcome (Option GoError × α) → Bool
  | .ret (some e, _) => decide (e.Error = "404 Not Found")
  | .ret (none, _) => false
  | .fatal => false

/-! ## The walk as a plan

What the two loops do is fixed by the listings alone: a sequence of
invocations of `processGitRepo`, cut short by a fatal error where a listing
fails or a directory lacks the suffix. -/

/-- One step of a walk: invoke `processGitRepo`, or stop with `log.Fatal`. -/
inductive Step where
  | trigger (path org name : String)
  | stop
deriving DecidableEq, Repr

/-- Run steps in order, until one ends the process. -/
def runPlan {σ : Type} (cfg : Config) (env : Env σ) : List Step → σ → Result σ Unit
  | [], s => ⟨.ret (), s, []⟩
  | .trigger path org name :: rest, s =>
    (processGitRepo cfg env path org name s).andThen fun _ s1 => runPlan cfg env rest s1
  | .stop :: _, s => ⟨.fatal, s, []⟩

/-- The steps of the loop of `processOrg` over a listing (steps that follow
a `stop` are never run). -/
def orgPlan (path org : String) : List FileInfo → List Step
  | [] => []
  | file :: files =>
    if file.IsDir then
      if HasSuffix file.Name ".git" then
        .trigger (path ++ "/" ++ file.Name) org (dropLast4 file.Name) :: orgPlan path org files
      else .stop :: orgPlan path org files
    else orgPlan path org files

/-- The steps of `processOrg`. -/
def orgDirPlan (readDir : String → Option (List FileInfo)) (path org : String) : List Step :=
  match readDir path with
  | none => [.stop]
  | some files => orgPlan path org files

/-- The steps of the loop of `process` over a listing. -/
def rootPlan (readDir : String → Option (List FileInfo)) (path : String) :
    List FileInfo → List Step
  | [] => []
  | file :: files =>
    if file.IsDir then
      orgDirPlan readDir (path ++ "/" ++ file.Name) file.Name ++ rootPlan readDir path files
    else rootPlan readDir path files

/-- The invocations a walk over well-formed listings is to make, as the
specification words them: for each organization directory `O` of the root
listing and each repository directory `D` of its listing, in listing order,
the path `R/O/D`, the organization `O` and `D` without its last four
characters. -/
def expectedCalls (readDir : String → Option (List FileInfo)) (root : String)
    (rootFiles : List FileInfo) : List (String × String × String) :=
  (rootFiles.filter fun O => O.IsDir).flatMap fun O =>
    (((readDir (root ++ "/" ++ O.Name)).getD []).filter fun D => D.IsDir).map fun D =>
      (root ++ "/" ++ O.Name ++ "/" ++ D.Name, O.Name, dropLast4 D.Name)

/-- The listings with every entry that is not a directory removed. -/
def dirsOnly (readDir : String → Option (List FileInfo)) : String → Option (List FileInfo) :=
  fun path => (readDir path).map fun files => files.filter fun f => f.IsDir

/-! ## A forge that remembers a migration -/

/-- The forge model of the at-most-once property, for one pair `(org, name)`:
`present` holds of the forge states in which the repository is there.  It
stays true whatever request comes next, in such a state the lookup of the pair
returns a record with a non-zero id, and an invocation of `processGitRepo` for
the pair whose migrate POST the forge answers with 201 leaves the forge in such
a state. -/
structure Remembers {σ : Type} (cfg : Config) (env : Env σ) (org name : String)
    (present : σ → Prop) : Prop where
  sticky : ∀ s req, present s → present (env.roundTrip s req).2
  lookup : ∀ s, present s → ∃ r, (repo cfg env org name s).out = .ret r ∧ r.ID ≠ 0
  migrated : ∀ s path,
    (∃ e ∈ (processGitRepo cfg env path org name s).trace, isMigrate201 cfg e = true) →
      present (processGitRepo cfg env path org name s).forge

/-- The forge model of the second resolution, for one organization `name`:
`present` holds of the forge states in which the organization is there.  It
stays true whatever request comes next, in such a state the GET of the
organization is answered with status 200 and a body that decodes, and a create
POST for `name` that the forge answers with 201 leaves it in such a state. -/
structure ReportsCreated {σ : Type} (cfg : Config) (env : Env σ) (name : String)
    (present : σ → Prop) : Prop where
  sticky : ∀ s req, present s → present (env.roundTrip s req).2
  lookup : ∀ s, present s →
    ∃ resp, (env.roundTrip s (getRequest cfg (orgURI name))).1 = .response resp ∧
      resp.StatusCode = 200 ∧ (env.unmarshalOrg resp.Body {}).2 = none
  created : ∀ s resp,
    (env.roundTrip s (postRequest cfg "/api/v1/orgs"
      (.organization { Username := name }))).1 = .response resp →
    resp.StatusCode = 201 →
    present (env.roundTrip s (postRequest cfg "/api/v1/orgs"
      (.organization { Username := name }))).2

/-! ## Concrete worlds -/

/-- A JSON error as `encoding/json` reports it for a body that is no JSON. -/
def badJson : JsonError :=
  ⟨"invalid character 'o' in literal null (expecting 'u')", by decide⟩

/-- The value of a string of decimal digits; `none` for any other string. -/
def parseId (b : String) : Option Int :=
  if b.data ≠ [] ∧ b.data.all Char.isDigit = true then
    some (Int.ofNat (b.data.foldl (fun n c => 10 * n + (c.toNat - 48)) 0))
  else none

/-- A decoder for bodies that consist of the record's id alone. -/
def idRepo (b : String) (out : RepoResponse) : RepoResponse × Option JsonError :=
  match parseId b with
  | some n => ({ out with ID := n }, none)
  | none => (out, some badJson)

/-- A decoder for bodies that consist of the record's id alone. -/
def idOrg (b : String) (out : OrganizationResponse) :
    OrganizationResponse × Option JsonError :=
  match parseId b with
  | some n => ({ out with ID := n }, none)
  | none => (out, some badJson)

/-- A forge that answers from a script, whatever it is asked: its state is
the number of calls answered so far, and past the script the client fails. -/
def scripted (script : List Reply) (readDir : String → Option (List FileInfo)) : Env Nat :=
  { roundTrip := fun n _ => (script.getD n .fatal, n + 1)
    unmarshalRepo := idRepo
    unmarshalOrg := idOrg
    readDir := readDir }

/-- A configuration for the examples. -/
def demoCfg : Config :=
  { giteaURL := "https://git", giteaUsername := "u", giteaPassword := "p",
    sourcePath := "/srv" }

/-- No directory can be listed. -/
def noDirs : String → Option (List FileInfo) := fun _ => none

/-- The tree `/srv/acme/{widgets.git, gizmos.git}` with a regular file
`README` next to the organization directory. -/
def acmeTree : String → Option (List FileInfo) := fun path =>
  if path = "/srv" then some [⟨"README", false⟩, ⟨"acme", true⟩]
  else if path = "/srv/acme" then some [⟨"widgets.git", true⟩, ⟨"gizmos.git", true⟩]
  else none

/-- The tree `/srv/acme/{widgets.git, notes, gizmos.git}`, `/srv/zeta/z.git`:
the directory `notes` lacks the suffix. -/
def brokenTree : String → Option (List FileInfo) := fun path =>
  if path = "/srv" then some [⟨"acme", true⟩, ⟨"zeta", true⟩]
  else if path = "/srv/acme" then
    some [⟨"widgets.git", true⟩, ⟨"notes", true⟩, ⟨"gizmos.git", true⟩]
  else if path = "/srv/zeta" then some [⟨"z.git", true⟩]
  else none

/-- The tree `/srv/neworg/proj.git`. -/
def neworgTree : String → Option (List FileInfo) := fun path =>
  if path = "/srv" then some [⟨"neworg", true⟩]
  else if path = "/srv/neworg" then some [⟨"proj.git", true⟩]
  else none

/-- The states of a forge that fails the first migration it is asked for. -/
inductive Flaky where
  | fresh
  | failedOnce
  | migrated
deriving DecidableEq, Repr

/-- A forge with the organization `neworg` (id 7) and no repository.  It
answers the first migrate POST with 500 and the next one with 201; from then
on it reports the repository (id 5). -/
def flakyRoundTrip (s : Flaky) (req : Request) : Reply × Flaky :=
  match req.method, req.body, s with
  | .POST, some (.migrate _), .fresh =>
    (.response ⟨500, "500 Internal Server Error", "", false⟩, .failedOnce)
  | .POST, some (.migrate _), .failedOnce => (.response ⟨201, "201 Created", "5", false⟩, .migrated)
  | .POST, some (.migrate _), .migrated => (.response ⟨409, "409 Conflict", "", false⟩, .migrated)
  | .POST, _, s => (.response ⟨422, "422 Unprocessable Entity", "", false⟩, s)
  | .GET, _, s =>
    if req.url = "https://git/api/v1/orgs/neworg" then (.response ⟨200, "200 OK", "7", false⟩, s)
    else if req.url = "https://git/api/v1/repos/neworg/proj" ∧ s = .migrated then
      (.response ⟨200, "200 OK", "5", false⟩, s)
    else (.response ⟨404, "404 Not Found", "", false⟩, s)

/-- The flaky forge with the tree `/srv/neworg/proj.git`. -/
def flakyEnv : Env Flaky :=
  { roundTrip := flakyRoundTrip
    unmarshalRepo := idRepo
    unmarshalOrg := idOrg
    readDir := neworgTree }

/-- A forge that knows one organization, `neworg`, once it has been created:
its state tells whether it has.  The create POST is answered with 201 and the
id 42 the first time and with 422 afterwards; the GET of `neworg` is answered
with 404 before the creation and with the record afterwards. -/
def registryRoundTrip (created : Bool) (req : Request) : Reply × Bool :=
  match req.method, req.body with
  | .POST, some (.organization _) =>
    if created then (.response ⟨422, "422 Unprocessable Entity", "", false⟩, true)
    else (.response ⟨201, "201 Created", "42", false⟩, true)
  | .POST, _ => (.response ⟨404, "404 Not Found", "", false⟩, created)
  | .GET, _ =>
    if req.url = "https://git/api/v1/orgs/neworg" ∧ created = true then
      (.response ⟨200, "200 OK", "42", false⟩, created)
    else (.response ⟨404, "404 Not Found", "", false⟩, created)

/-- The registry forge, without a file system. -/
def registryEnv : Env Bool :=
  { roundTrip := registryRoundTrip
    unmarshalRepo := idRepo
    unmarshalOrg := idOrg
    readDir := noDirs }

/-! ## Basic facts about sequencing and the client -/

section Basics

variable {σ α β : Type}

theorem andThen_fatal (r : Result σ α) (k : α → σ → Result σ β) (h : r.out = .fatal) :
    r.andThen k = ⟨.fatal, r.forge, r.trace⟩ := by
  simp [Result.andThen, h]

theorem andThen_ret (r : Result σ α) (k : α → σ → Result σ β) (a : α) (h : r.out = .ret a) :
    r.andThen k = ⟨(k a r.forge).out, (k a r.forge).forge, r.trace ++ (k a r.forge).trace⟩ := by
  simp [Result.andThen, h]

theorem httpGet_response (cfg : Config) (env : Env σ) (unm : String → α → α × Option JsonError)
    (uri : String) (output : α) (s s1 : σ) (resp : Response)
    (h : env.roundTrip s (getRequest cfg uri) = (.response resp, s1)) :
    httpGet cfg env unm uri output s =
      ⟨.ret (getResult unm resp output), s1, [.http (getRequest cfg uri) (.response resp)]⟩ := by
  simp [httpGet, h]

theorem httpPost_response (cfg : Config) (env : Env σ) (unm : String → α → α × Option JsonError)
    (uri : String) (input : Payload) (output : α) (s s1 : σ) (resp : Response)
    (h : env.roundTrip s (postRequest cfg uri input) = (.response resp, s1)) :
    httpPost cfg env unm uri input output s =
      ⟨.ret (postResult unm resp output), s1,
        [.http (postRequest cfg uri input) (.response resp)]⟩ := by
  simp [httpPost, h]

/-- The client makes exactly one call, whatever the answer. -/
theorem httpGet_trace (cfg : Config) (env : Env σ) (unm : String → α → α × Option JsonError)
    (uri : String) (output : α) (s : σ) :
    (httpGet cfg env unm uri output s).trace =
      [.http (getRequest cfg uri) (env.roundTrip s (getRequest cfg uri)).1] ∧
    (httpGet cfg env unm uri output s).forge = (env.roundTrip s (getRequest cfg uri)).2 := by
  unfold httpGet
  rcases h : env.roundTrip s (getRequest cfg uri) with ⟨rep, s1⟩
  cases rep <;> simp

theorem httpPost_trace (cfg : Config) (env : Env σ) (unm : String → α → α × Option JsonError)
    (uri : String) (input : Payload) (output : α) (s : σ) :
    (httpPost cfg env unm uri input output s).trace =
      [.http (postRequest cfg uri input) (env.roundTrip s (postRequest cfg uri input)).1] ∧
    (httpPost cfg env unm uri input output s).forge =
      (env.roundTrip s (postRequest cfg uri input)).2 := by
  unfold httpPost
  rcases h : env.roundTrip s (postRequest cfg uri input) with ⟨rep, s1⟩
  cases rep <;> simp

end Basics

/-! ## The HTTP client (C8, C9) -/

/-- C9: for every response the client obtains, `httpPost` returns an error
whose message is the status line whenever the status code is not 201 (200 and
any other 2xx code included) and `httpGet` does so whenever the status code is
not 200; with status 201 (POST) or 200 (GET) and a body that decodes without
error, they return no error and the output holds the decoded body. -/
theorem httpPost_httpGet_status_contract {σ α : Type} (cfg : Config) (env : Env σ)
    (unm : String → α → α × Option JsonError) (puri guri : String) (input : Payload)
    (output : α) (sp sp1 sg sg1 : σ) (presp gresp : Response)
    (hpost : env.roundTrip sp (postRequest cfg puri input) = (.response presp, sp1))
    (hget : env.roundTrip sg (getRequest cfg guri) = (.response gresp, sg1)) :
    (presp.StatusCode ≠ 201 →
      ∃ e, (httpPost cfg env unm puri input output sp).out = .ret (some e, output) ∧
        e.Error = presp.Status) ∧
    (gresp.StatusCode ≠ 200 →
      ∃ e, (httpGet cfg env unm guri output sg).out = .ret (some e, output) ∧
        e.Error = gresp.Status) ∧
    (presp.StatusCode = 201 → (unm presp.Body output).2 = none →
      (httpPost cfg env unm puri input output sp).out =
        .ret (none, (unm presp.Body output).1)) ∧
    (gresp.StatusCode = 200 → (unm gresp.Body output).2 = none →
      (httpGet cfg env unm guri output sg).out = .ret (none, (unm gresp.Body output).1)) := by
  rw [httpPost_response cfg env unm puri input output sp sp1 presp hpost,
    httpGet_response cfg env unm guri output sg sg1 gresp hget]
  refine ⟨fun h => ⟨.status presp.Status, ?_, rfl⟩, fun h => ⟨.status gresp.Status, ?_, rfl⟩,
    fun h hd => ?_, fun h hd => ?_⟩
  · simp [postResult, h]
  · simp [getResult, h]
  · simp [postResult, h, hd]
  · simp [getResult, h, hd]

/-- C9, at a forge that answers with status 200 and the body `7`: the POST is
an error `200 OK`, the GET decodes the body. -/
theorem httpPost_httpGet_status_contract_witness :
    (∃ e, (httpPost demoCfg (scripted [.response ⟨200, "200 OK", "7", false⟩] noDirs) idRepo
        "/api/v1/repos/migrate" (.migrate {}) {} 0).out = .ret (some e, {}) ∧
      e.Error = "200 OK") ∧
    (httpGet demoCfg (scripted [.response ⟨200, "200 OK", "7", false⟩] noDirs) idRepo
        "/api/v1/repos/acme/widgets" {} 0).out = .ret (none, { ID := 7 }) :=
  have h := httpPost_httpGet_status_contract demoCfg
    (scripted [.response ⟨200, "200 OK", "7", false⟩] noDirs) idRepo
    "/api/v1/repos/migrate" "/api/v1/repos/acme/widgets" (.migrate {}) ({} : RepoResponse)
    0 1 0 1 ⟨200, "200 OK", "7", false⟩ ⟨200, "200 OK", "7", false⟩ rfl rfl
  ⟨h.1 (by decide), h.2.2.2 rfl (by decide)⟩

/-- C8, as stated, fails: with the success status and a body that is no JSON
for the output type both `httpGet` and `httpPost` return the decoding error to
the caller instead of ending the process. -/
theorem client_returns_decoding_errors :
    (httpGet demoCfg (scripted [.response ⟨200, "200 OK", "nope", false⟩] noDirs) idRepo
        "/api/v1/repos/acme/widgets" {} 0).out = .ret (some (.json badJson), {}) ∧
    (httpPost demoCfg (scripted [.response ⟨201, "201 Created", "nope", false⟩] noDirs) idRepo
        "/api/v1/repos/migrate" (.migrate {}) {} 0).out = .ret (some (.json badJson), {}) := by
  refine ⟨?_, ?_⟩ <;> decide

/-- C8, amended: an error that `httpGet` or `httpPost` returns to its caller
comes either from the status check (status code not 200 for GET, not 201 for
POST; the error is the status line) or from `json.Unmarshal`: a response with
the success status whose body does not decode does not end the process inside
the client, the decoding error is returned to the caller, together with what
was decoded.  The four parts: what `httpGet` does with a response, what
`httpPost` does with a response, and for each that these are the only errors
they return. -/
theorem client_errors_status_or_decoding {σ α : Type} (cfg : Config) (env : Env σ)
    (unm : String → α → α × Option JsonError) (uri : String) (input : Payload) (output : α)
    (s : σ) :
    (∀ resp s1, env.roundTrip s (getRequest cfg uri) = (.response resp, s1) →
      (resp.StatusCode ≠ 200 →
        httpGet cfg env unm uri output s =
          ⟨.ret (some (.status resp.Status), output), s1,
            [.http (getRequest cfg uri) (.response resp)]⟩) ∧
      (resp.StatusCode = 200 → ∀ je, (unm resp.Body output).2 = some je →
        httpGet cfg env unm uri output s =
          ⟨.ret (some (.json je), (unm resp.Body output).1), s1,
            [.http (getRequest cfg uri) (.response resp)]⟩)) ∧
    (∀ resp s1, env.roundTrip s (postRequest cfg uri input) = (.response resp, s1) →
      (resp.StatusCode ≠ 201 →
        httpPost cfg env unm uri input output s =
          ⟨.ret (some (.status resp.Status), output), s1,
            [.http (postRequest cfg uri input) (.response resp)]⟩) ∧
      (resp.StatusCode = 201 → ∀ je, (unm resp.Body output).2 = some je →
        httpPost cfg env unm uri input output s =
          ⟨.ret (some (.json je), (unm resp.Body output).1), s1,
            [.http (postRequest cfg uri input) (.response resp)]⟩)) ∧
    (∀ e o, (httpGet cfg env unm uri output s).out = .ret (some e, o) →
      ∃ resp, (env.roundTrip s (getRequest cfg uri)).1 = .response resp ∧
        ((resp.StatusCode ≠ 200 ∧ e = .status resp.Status) ∨
          (resp.StatusCode = 200 ∧ ∃ je, (unm resp.Body output).2 = some je ∧ e = .json je))) ∧
    (∀ e o, (httpPost cfg env unm uri input output s).out = .ret (some e, o) →
      ∃ resp, (env.roundTrip s (postRequest cfg uri input)).1 = .response resp ∧
        ((resp.StatusCode ≠ 201 ∧ e = .status resp.Status) ∨
          (resp.StatusCode = 201 ∧ ∃ je, (unm resp.Body output).2 = some je ∧ e = .json je))) := by
  refine ⟨?_, ?_, ?_, ?_⟩
  · intro resp s1 h
    rw [httpGet_response cfg env unm uri output s s1 resp h]
    refine ⟨fun hc => ?_, fun hc je hj => ?_⟩
    · simp [getResult, hc]
    · simp [getResult, hc, hj]
  · intro resp s1 h
    rw [httpPost_response cfg env unm uri input output s s1 resp h]
    refine ⟨fun hc => ?_, fun hc je hj => ?_⟩
    · simp [postResult, hc]
    · simp [postResult, hc, hj]
  · intro e o
    unfold httpGet
    rcases h : env.roundTrip s (getRequest cfg uri) with ⟨rep, s1⟩
    cases rep with
    | fatal => simp
    | response resp =>
      by_cases hc : resp.StatusCode = 200
      · simp only [getResult, hc, ne_eq, not_true_eq_false, if_false]
        intro he
        cases hu : (unm resp.Body output).2 with
        | none => simp [hu] at he
        | some je =>
          simp [hu] at he
          exact ⟨resp, rfl, Or.inr ⟨hc, je, hu, he.1.symm⟩⟩
      · simp only [getResult, hc, ne_eq, not_false_eq_true, if_true]
        intro he
        simp at he
        exact ⟨resp, rfl, Or.inl ⟨hc, he.1.symm⟩⟩
  · intro e o
    unfold httpPost
    rcases h : env.roundTrip s (postRequest cfg uri input) with ⟨rep, s1⟩
    cases rep with
    | fatal => simp
    | response resp =>
      by_cases hc : resp.StatusCode = 201
      · simp only [postResult, hc, ne_eq, not_true_eq_false, if_false]
        intro he
        cases hu : (unm resp.Body output).2 with
        | none => simp [hu] at he
        | some je =>
          simp [hu] at he
          exact ⟨resp, rfl, Or.inr ⟨hc, je, hu, he.1.symm⟩⟩
      · simp only [postResult, hc, ne_eq, not_false_eq_true, if_true]
        intro he
        simp at he
        exact ⟨resp, rfl, Or.inl ⟨hc, he.1.symm⟩⟩

/-- C8 amended, at a forge that answers the migrate POST with status 201 and
the body `nope`, and at one that answers a GET with status 500: the first
returns the decoding error and the state after the POST, the second the status
line. -/
theorem client_errors_status_or_decoding_witness :
    httpPost demoCfg (scripted [.response ⟨201, "201 Created", "nope", false⟩] noDirs) idRepo
        "/api/v1/repos/migrate" (.migrate {}) {} 0 =
      ⟨.ret (some (.json badJson), {}), 1,
        [.http (postRequest demoCfg "/api/v1/repos/migrate" (.migrate {}))
          (.response ⟨201, "201 Created", "nope", false⟩)]⟩ ∧
    httpGet demoCfg
        (scripted [.response ⟨500, "500 Internal Server Error", "", false⟩] noDirs) idRepo
        "/api/v1/repos/acme/widgets" {} 0 =
      ⟨.ret (some (.status "500 Internal Server Error"), {}), 1,
        [.http (getRequest demoCfg "/api/v1/repos/acme/widgets")
          (.response ⟨500, "500 Internal Server Error", "", false⟩)]⟩ :=
  ⟨((client_errors_status_or_decoding demoCfg
      (scripted [.response ⟨201, "201 Created", "nope", false⟩] noDirs) idRepo
      "/api/v1/repos/migrate" (.migrate {}) ({} : RepoResponse) 0).2.1
      ⟨201, "201 Created", "nope", false⟩ 1 rfl).2 rfl badJson (by decide),
    ((client_errors_status_or_decoding demoCfg
      (scripted [.response ⟨500, "500 Internal Server Error", "", false⟩] noDirs) idRepo
      "/api/v1/repos/acme/widgets" (.migrate {}) ({} : RepoResponse) 0).1
      ⟨500, "500 Internal Server Error", "", false⟩ 1 rfl).1 (by decide)⟩

/-! ## The resolvers and the migration trigger (C1, C3, C5, C7) -/

/-- C1: when the lookup GET is answered with status 200 and a record whose id
is not 0, `processGitRepo` returns normally and that GET is the only HTTP call
it makes: no POST of either kind and no organization lookup. -/
theorem processGitRepo_existing_makes_no_post {σ : Type} (cfg : Config) (env : Env σ)
    (path org name : String) (s s1 : σ) (resp : Response) (r : RepoResponse)
    (hget : env.roundTrip s (getRequest cfg (repoURI org name)) = (.response resp, s1))
    (hcode : resp.StatusCode = 200)
    (hdec : env.unmarshalRepo resp.Body {} = (r, none))
    (hid : r.ID ≠ 0) :
    processGitRepo cfg env path org name s =
      ⟨.ret (), s1,
        [.call path org name, .http (getRequest cfg (repoURI org name)) (.response resp)]⟩ := by
  simp [processGitRepo, repo, Result.andThen, httpGet, hget, getResult, hcode, hdec, hid]

/-- C1, at a forge that reports the repository `acme/widgets` with id 7. -/
theorem processGitRepo_existing_makes_no_post_witness :
    processGitRepo demoCfg (scripted [.response ⟨200, "200 OK", "7", false⟩] noDirs)
        "/srv/acme/widgets.git" "acme" "widgets" 0 =
      ⟨.ret (), 1,
        [.call "/srv/acme/widgets.git" "acme" "widgets",
          .http (getRequest demoCfg (repoURI "acme" "widgets"))
            (.response ⟨200, "200 OK", "7", false⟩)]⟩ :=
  processGitRepo_existing_makes_no_post demoCfg
    (scripted [.response ⟨200, "200 OK", "7", false⟩] noDirs)
    "/srv/acme/widgets.git" "acme" "widgets" 0 1 ⟨200, "200 OK", "7", false⟩ { ID := 7 }
    rfl rfl (by decide) (by decide)

/-- The lookup makes the one GET and nothing else. -/
theorem repo_forge_trace {σ : Type} (cfg : Config) (env : Env σ) (owner name : String) (s : σ) :
    (repo cfg env owner name s).forge =
      (env.roundTrip s (getRequest cfg (repoURI owner name))).2 ∧
    (repo cfg env owner name s).trace =
      [.http (getRequest cfg (repoURI owner name))
        (env.roundTrip s (getRequest cfg (repoURI owner name))).1] := by
  unfold repo httpGet Result.andThen
  rcases h : env.roundTrip s (getRequest cfg (repoURI owner name)) with ⟨rep, s1⟩
  cases rep with
  | fatal => simp
  | response resp =>
    simp only
    rcases hr : getResult env.unmarshalRepo resp ({} : RepoResponse) with ⟨e, r⟩
    cases e with
    | none => simp
    | some err => by_cases h4 : err.Error = "404 Not Found" <;> simp [h4]

/-- C7: `repo(owner, name)` ends the process exactly when its GET fails other
than by the error `404 Not Found` (the client gives up, or it returns another
error, such as the status line of a 500).  On `404 Not Found` it returns the
zero-valued record, whose id is 0; on success it returns the decoded record.
When it ends the process, `processGitRepo` has made the lookup and nothing
else: no organization lookup and no migrate POST. -/
theorem repo_fatal_iff_failure_other_than_404 {σ : Type} (cfg : Config) (env : Env σ)
    (owner name : String) (s : σ) :
    (∀ e o, (httpGet cfg env env.unmarshalRepo (repoURI owner name) ({} : RepoResponse) s).out
        = .ret (some e, o) → e.Error = "404 Not Found" →
      (repo cfg env owner name s).out = .ret {} ∧ ({} : RepoResponse).ID = 0) ∧
    (∀ r, (httpGet cfg env env.unmarshalRepo (repoURI owner name) ({} : RepoResponse) s).out
        = .ret (none, r) →
      (repo cfg env owner name s).out = .ret r) ∧
    ((repo cfg env owner name s).out = .fatal ↔
      ((httpGet cfg env env.unmarshalRepo (repoURI owner name) ({} : RepoResponse) s).out
          = .fatal ∨
        ∃ e o, (httpGet cfg env env.unmarshalRepo (repoURI owner name)
            ({} : RepoResponse) s).out = .ret (some e, o) ∧ e.Error ≠ "404 Not Found")) ∧
    (∀ resp s1, env.roundTrip s (getRequest cfg (repoURI owner name)) = (.response resp, s1) →
      resp.StatusCode ≠ 200 → resp.Status ≠ "404 Not Found" →
        (repo cfg env owner name s).out = .fatal) ∧
    ((repo cfg env owner name s).out = .fatal → ∀ path,
      processGitRepo cfg env path owner name s =
        ⟨.fatal, (env.roundTrip s (getRequest cfg (repoURI owner name))).2,
          [.call path owner name,
            .http (getRequest cfg (repoURI owner name))
              (env.roundTrip s (getRequest cfg (repoURI owner name))).1]⟩) := by
  refine ⟨?_, ?_, ?_, ?_, ?_⟩
  · intro e o hg he
    simp [repo, Result.andThen, hg, he]
  · intro r hg
    simp [repo, Result.andThen, hg]
  · unfold repo Result.andThen
    cases hg : (httpGet cfg env env.unmarshalRepo (repoURI owner name)
        ({} : RepoResponse) s).out with
    | fatal => simp
    | ret res =>
      rcases res with ⟨e, r⟩
      cases e with
      | none => simp
      | some err => by_cases h4 : err.Error = "404 Not Found" <;> simp [h4]
  · intro resp s1 hrt hc hs
    simp [repo, Result.andThen, httpGet, hrt, getResult, hc, GoError.Error, hs]
  · intro hf path
    have ht := repo_forge_trace cfg env owner name s
    simp [processGitRepo, Result.andThen, hf, ht.1, ht.2]

/-- C7, at a forge that answers the lookup with status 500: the lookup ends
the process and `processGitRepo` has made no other call. -/
theorem repo_fatal_iff_failure_other_than_404_witness :
    (repo demoCfg (scripted [.response ⟨500, "500 Internal Server Error", "", false⟩] noDirs)
        "acme" "widgets" 0).out = .fatal ∧
    processGitRepo demoCfg
        (scripted [.response ⟨500, "500 Internal Server Error", "", false⟩] noDirs)
        "/srv/acme/widgets.git" "acme" "widgets" 0 =
      ⟨.fatal, 1,
        [.call "/srv/acme/widgets.git" "acme" "widgets",
          .http (getRequest demoCfg (repoURI "acme" "widgets"))
            (.response ⟨500, "500 Internal Server Error", "", false⟩)]⟩ ∧
    (repo demoCfg (scripted [.response ⟨404, "404 Not Found", "", false⟩] noDirs)
        "acme" "widgets" 0).out = .ret {} :=
  have h := repo_fatal_iff_failure_other_than_404 demoCfg
    (scripted [.response ⟨500, "500 Internal Server Error", "", false⟩] noDirs)
    "acme" "widgets" 0
  have hf := h.2.2.2.1 ⟨500, "500 Internal Server Error", "", false⟩ 1 rfl
    (by decide) (by decide)
  ⟨hf, h.2.2.2.2 hf "/srv/acme/widgets.git",
    ((repo_fatal_iff_failure_other_than_404 demoCfg
      (scripted [.response ⟨404, "404 Not Found", "", false⟩] noDirs) "acme" "widgets" 0).1
        (.status "404 Not Found") {} (by decide) (by decide)).1⟩

theorem requests_append (a b : List Event) : requests (a ++ b) = requests a ++ requests b := by
  induction a with
  | nil => rfl
  | cons e es ih => cases e <;> simp [requests, ih]

theorem calls_append (a b : List Event) : calls (a ++ b) = calls a ++ calls b := by
  induction a with
  | nil => rfl
  | cons e es ih => cases e <;> simp [calls, ih]

/-- An error `404 Not Found` of `httpGet` is the status line of the response,
and the output is as it was handed in. -/
theorem httpGet_404 {σ α : Type} (cfg : Config) (env : Env σ)
    (unm : String → α → α × Option JsonError) (uri : String) (output : α) (s : σ)
    (e : GoError) (o : α)
    (hg : (httpGet cfg env unm uri output s).out = .ret (some e, o))
    (he : e.Error = "404 Not Found") : o = output := by
  unfold httpGet at hg
  rcases h : env.roundTrip s (getRequest cfg uri) with ⟨rep, s1⟩
  rw [h] at hg
  cases rep with
  | fatal => simp at hg
  | response resp =>
    by_cases hc : resp.StatusCode = 200
    · simp only [getResult, hc, ne_eq, not_true_eq_false, if_false] at hg
      cases hu : (unm resp.Body output).2 with
      | none => simp [hu] at hg
      | some je =>
        simp [hu] at hg
        rw [← hg.1] at he
        exact absurd he je.ne404
    · simp [getResult, hc] at hg
      exact hg.2.symm

/-- The requests of an organization resolution: the GET, and after it the
create POST exactly when the GET failed with `404 Not Found`. -/
theorem organization_requests {σ : Type} (cfg : Config) (env : Env σ) (name : String) (s : σ) :
    requests (organization cfg env name s).trace =
      getRequest cfg (orgURI name) ::
        (if failed404 (httpGet cfg env env.unmarshalOrg (orgURI name)
            ({} : OrganizationResponse) s).out = true
          then [postRequest cfg "/api/v1/orgs" (.organization { Username := name })]
          else []) := by
  have ht := httpGet_trace cfg env env.unmarshalOrg (orgURI name) ({} : OrganizationResponse) s
  unfold organization Result.andThen
  cases hg : (httpGet cfg env env.unmarshalOrg (orgURI name)
      ({} : OrganizationResponse) s).out with
  | fatal => simp [failed404, ht.1, requests]
  | ret res =>
    rcases res with ⟨e, o⟩
    cases e with
    | none => simp [failed404, ht.1, requests]
    | some err =>
      by_cases h4 : err.Error = "404 Not Found"
      · have hp := httpPost_trace cfg env env.unmarshalOrg "/api/v1/orgs"
          (.organization { Username := name }) o
          (httpGet cfg env env.unmarshalOrg (orgURI name) ({} : OrganizationResponse) s).forge
        cases hq : (httpPost cfg env env.unmarshalOrg "/api/v1/orgs"
            (.organization { Username := name }) o
            (httpGet cfg env env.unmarshalOrg (orgURI name)
              ({} : OrganizationResponse) s).forge).out with
        | fatal => simp [failed404, h4, hq, ht.1, hp.1, requests]
        | ret res2 =>
          rcases res2 with ⟨e2, c⟩
          cases e2 <;> simp [failed404, h4, hq, ht.1, hp.1, requests]
      · simp [failed404, h4, ht.1, requests]

/-- A POST that returns no error was answered with status 201. -/
theorem httpPost_none {σ α : Type} (cfg : Config) (env : Env σ)
    (unm : String → α → α × Option JsonError) (uri : String) (input : Payload) (output c : α)
    (s : σ) (h : (httpPost cfg env unm uri input output s).out = .ret (none, c)) :
    ∃ resp, (httpPost cfg env unm uri input output s).trace =
        [.http (postRequest cfg uri input) (.response resp)] ∧ resp.StatusCode = 201 := by
  unfold httpPost at h ⊢
  rcases hrt : env.roundTrip s (postRequest cfg uri input) with ⟨rep, s1⟩
  rw [hrt] at h
  cases rep with
  | fatal => simp at h
  | response resp =>
    refine ⟨resp, rfl, ?_⟩
    by_contra hc
    simp [postResult, hc] at h

/-- C3: when the GET of the organization fails with the error
`404 Not Found`, `organization(name)` issues exactly one POST, to
`/api/v1/orgs`, with a body whose username is `name` and whose description,
full name, location and website are empty; the forge is left in the state
after that POST, and the record the POST yields is returned.  When the GET
succeeds it issues no POST, returns the fetched record and leaves the forge in
the state after the GET.  Hence, against a forge that reports a created
organization as existing afterwards, the resolution that follows a creation,
and any resolution in a state where the organization is there, issues the GET
alone and returns. -/
theorem organization_creates_only_when_absent {σ : Type} (cfg : Config) (env : Env σ)
    (name : String) (s : σ) :
    (∀ e o, (httpGet cfg env env.unmarshalOrg (orgURI name)
          ({} : OrganizationResponse) s).out = .ret (some e, o) →
        e.Error = "404 Not Found" →
      (organization cfg env name s).trace =
        [.http (getRequest cfg (orgURI name))
            (env.roundTrip s (getRequest cfg (orgURI name))).1,
          .http (postRequest cfg "/api/v1/orgs"
              (.organization { Description := "", FullName := "", Location := "",
                               Username := name, Website := "" }))
            (env.roundTrip (env.roundTrip s (getRequest cfg (orgURI name))).2
              (postRequest cfg "/api/v1/orgs" (.organization { Username := name }))).1] ∧
      (organization cfg env name s).forge =
        (env.roundTrip (env.roundTrip s (getRequest cfg (orgURI name))).2
          (postRequest cfg "/api/v1/orgs" (.organization { Username := name }))).2 ∧
      ∀ created, (httpPost cfg env env.unmarshalOrg "/api/v1/orgs"
          (.organization { Username := name }) ({} : OrganizationResponse)
          (env.roundTrip s (getRequest cfg (orgURI name))).2).out = .ret (none, created) →
        (organization cfg env name s).out = .ret created) ∧
    (∀ r, (httpGet cfg env env.unmarshalOrg (orgURI name)
          ({} : OrganizationResponse) s).out = .ret (none, r) →
      organization cfg env name s =
        ⟨.ret r, (env.roundTrip s (getRequest cfg (orgURI name))).2,
          [.http (getRequest cfg (orgURI name))
            (env.roundTrip s (getRequest cfg (orgURI name))).1]⟩) ∧
    (∀ present : σ → Prop, ReportsCreated cfg env name present →
      (∀ e o created, (httpGet cfg env env.unmarshalOrg (orgURI name)
            ({} : OrganizationResponse) s).out = .ret (some e, o) →
          e.Error = "404 Not Found" →
          (organization cfg env name s).out = .ret created →
        present (organization cfg env name s).forge ∧
        requests (organization cfg env name (organization cfg env name s).forge).trace =
          [getRequest cfg (orgURI name)] ∧
        ∃ r, (organization cfg env name (organization cfg env name s).forge).out = .ret r) ∧
      (∀ t, present t →
        requests (organization cfg env name t).trace = [getRequest cfg (orgURI name)] ∧
        (∃ r, (organization cfg env name t).out = .ret r) ∧
        present (organization cfg env name t).forge)) := by
  have key : ∀ t r, (httpGet cfg env env.unmarshalOrg (orgURI name)
        ({} : OrganizationResponse) t).out = .ret (none, r) →
      organization cfg env name t =
        ⟨.ret r, (env.roundTrip t (getRequest cfg (orgURI name))).2,
          [.http (getRequest cfg (orgURI name))
            (env.roundTrip t (getRequest cfg (orgURI name))).1]⟩ := by
    intro t r hg
    have ht := httpGet_trace cfg env env.unmarshalOrg (orgURI name)
      ({} : OrganizationResponse) t
    simp [organization, Result.andThen, hg, ht.1, ht.2]
  have absent : ∀ e o, (httpGet cfg env env.unmarshalOrg (orgURI name)
        ({} : OrganizationResponse) s).out = .ret (some e, o) →
      e.Error = "404 Not Found" →
      (organization cfg env name s).trace =
        [.http (getRequest cfg (orgURI name))
            (env.roundTrip s (getRequest cfg (orgURI name))).1,
          .http (postRequest cfg "/api/v1/orgs" (.organization { Username := name }))
            (env.roundTrip (env.roundTrip s (getRequest cfg (orgURI name))).2
              (postRequest cfg "/api/v1/orgs" (.organization { Username := name }))).1] ∧
      (organization cfg env name s).forge =
        (env.roundTrip (env.roundTrip s (getRequest cfg (orgURI name))).2
          (postRequest cfg "/api/v1/orgs" (.organization { Username := name }))).2 ∧
      (organization cfg env name s).out =
        match (httpPost cfg env env.unmarshalOrg "/api/v1/orgs"
          (.organization { Username := name }) ({} : OrganizationResponse)
          (env.roundTrip s (getRequest cfg (orgURI name))).2).out with
        | .ret (none, created) => .ret created
        | _ => .fatal := by
    intro e o hg he
    have ho := httpGet_404 cfg env env.unmarshalOrg (orgURI name) {} s e o hg he
    subst ho
    have ht := httpGet_trace cfg env env.unmarshalOrg (orgURI name)
      ({} : OrganizationResponse) s
    have hp := httpPost_trace cfg env env.unmarshalOrg "/api/v1/orgs"
      (.organization { Username := name }) ({} : OrganizationResponse)
      (env.roundTrip s (getRequest cfg (orgURI name))).2
    cases hq : (httpPost cfg env env.unmarshalOrg "/api/v1/orgs"
        (.organization { Username := name }) ({} : OrganizationResponse)
        (env.roundTrip s (getRequest cfg (orgURI name))).2).out with
    | fatal => simp [organization, Result.andThen, hg, he, hq, ht.1, ht.2, hp.1, hp.2]
    | ret res =>
      rcases res with ⟨e2, c⟩
      cases e2 <;> simp [organization, Result.andThen, hg, he, hq, ht.1, ht.2, hp.1, hp.2]
  have later : ∀ present : σ → Prop, ReportsCreated cfg env name present → ∀ t, present t →
      requests (organization cfg env name t).trace = [getRequest cfg (orgURI name)] ∧
      (∃ r, (organization cfg env name t).out = .ret r) ∧
      present (organization cfg env name t).forge := by
    intro present hf t ht
    obtain ⟨resp, hr, hc, hd⟩ := hf.lookup t ht
    have hg : (httpGet cfg env env.unmarshalOrg (orgURI name)
        ({} : OrganizationResponse) t).out =
        .ret (none, (env.unmarshalOrg resp.Body {}).1) := by
      unfold httpGet
      rcases hrt : env.roundTrip t (getRequest cfg (orgURI name)) with ⟨rep, t1⟩
      rw [hrt] at hr
      simp only at hr
      subst hr
      simp [getResult, hc, hd]
    rw [key t _ hg]
    exact ⟨by simp [requests], ⟨_, rfl⟩, hf.sticky t _ ht⟩
  refine ⟨fun e o hg he => ?_, key s, fun present hf => ⟨?_, later present hf⟩⟩
  · obtain ⟨h1, h2, h3⟩ := absent e o hg he
    refine ⟨h1, h2, fun created hp => ?_⟩
    rw [h3, hp]
  · intro e o created hg he hout
    obtain ⟨_, h2, h3⟩ := absent e o hg he
    have hpres : present (organization cfg env name s).forge := by
      rw [hout] at h3
      cases hq : (httpPost cfg env env.unmarshalOrg "/api/v1/orgs"
          (.organization { Username := name }) ({} : OrganizationResponse)
          (env.roundTrip s (getRequest cfg (orgURI name))).2).out with
      | fatal => simp [hq] at h3
      | ret res =>
        rcases res with ⟨e2, c⟩
        cases e2 with
        | some err => simp [hq] at h3
        | none =>
          obtain ⟨resp, hpt, hcode⟩ := httpPost_none cfg env env.unmarshalOrg
            "/api/v1/orgs" _ _ c _ hq
          have hp := httpPost_trace cfg env env.unmarshalOrg "/api/v1/orgs"
            (.organization { Username := name }) ({} : OrganizationResponse)
            (env.roundTrip s (getRequest cfg (orgURI name))).2
          rw [hpt] at hp
          have hrep : (env.roundTrip (env.roundTrip s (getRequest cfg (orgURI name))).2
              (postRequest cfg "/api/v1/orgs" (.organization { Username := name }))).1 =
              .response resp := by
            have := hp.1
            simp at this
            exact this.symm
          rw [h2]
          exact hf.created _ resp hrep hcode
    obtain ⟨l1, l2, _⟩ := later present hf _ hpres
    exact ⟨hpres, l1, l2⟩

/-- The registry forge reports `neworg` once it has been created. -/
theorem registry_reports_created :
    ReportsCreated demoCfg registryEnv "neworg" (fun s => s = true) := by
  refine ⟨?_, ?_, ?_⟩
  · intro s req hs
    subst hs
    show (registryRoundTrip true req).2 = true
    unfold registryRoundTrip
    rcases req with ⟨m, url, u, p, ct, b⟩
    cases m with
    | GET => simp only; split_ifs <;> rfl
    | POST =>
      cases b with
      | none => rfl
      | some pl => cases pl <;> rfl
  · intro s hs
    subst hs
    exact ⟨⟨200, "200 OK", "42", false⟩, by decide, by decide, by decide⟩
  · intro s resp _ _
    cases s <;> rfl

/-- C3, at the registry forge, first without `neworg`: the first resolution
issues the GET (answered 404) and the create POST (answered 201), returns the
created record with id 42 and leaves the forge with the organization; the
second resolution, run from that state, issues the GET alone and returns the
record. -/
theorem organization_creates_only_when_absent_witness :
    ((organization demoCfg registryEnv "neworg" false).trace =
        [.http (getRequest demoCfg (orgURI "neworg"))
            (.response ⟨404, "404 Not Found", "", false⟩),
          .http (postRequest demoCfg "/api/v1/orgs"
              (.organization { Description := "", FullName := "", Location := "",
                               Username := "neworg", Website := "" }))
            (.response ⟨201, "201 Created", "42", false⟩)] ∧
      (organization demoCfg registryEnv "neworg" false).forge = true ∧
      (organization demoCfg registryEnv "neworg" false).out = .ret { ID := 42 }) ∧
    (requests (organization demoCfg registryEnv "neworg"
        (organization demoCfg registryEnv "neworg" false).forge).trace =
      [getRequest demoCfg (orgURI "neworg")] ∧
      ∃ r, (organization demoCfg registryEnv "neworg"
        (organization demoCfg registryEnv "neworg" false).forge).out = .ret r) ∧
    organization demoCfg registryEnv "neworg" true =
      ⟨.ret { ID := 42 }, true,
        [.http (getRequest demoCfg (orgURI "neworg"))
          (.response ⟨200, "200 OK", "42", false⟩)]⟩ :=
  have h := organization_creates_only_when_absent demoCfg registryEnv "neworg" false
  have h1 := h.1 (.status "404 Not Found") {} (by decide) (by decide)
  have h3 := (h.2.2 (fun s => s = true) registry_reports_created).1
    (.status "404 Not Found") {} { ID := 42 } (by decide) (by decide)
    (h1.2.2 { ID := 42 } (by decide))
  ⟨⟨h1.1, h1.2.1, h1.2.2 { ID := 42 } (by decide)⟩, h3.2,
    (organization_creates_only_when_absent demoCfg registryEnv "neworg" true).2.1
      { ID := 42 } (by decide)⟩

/-- C5, as stated, fails: when the repository lookup reports `404 Not Found`
and the GET of the organization is answered with status 500, the organization
resolution ends the process and no migrate POST is issued. -/
theorem processGitRepo_no_migrate_when_organization_fails :
    (httpGet demoCfg
      (scripted [.response ⟨404, "404 Not Found", "", false⟩,
        .response ⟨500, "500 Internal Server Error", "", false⟩] noDirs)
      idRepo (repoURI "neworg" "proj") {} 0).out = .ret (some (.status "404 Not Found"), {}) ∧
    (processGitRepo demoCfg
      (scripted [.response ⟨404, "404 Not Found", "", false⟩,
        .response ⟨500, "500 Internal Server Error", "", false⟩] noDirs)
      "/srv/neworg/proj.git" "neworg" "proj" 0).out = .fatal ∧
    requests (processGitRepo demoCfg
      (scripted [.response ⟨404, "404 Not Found", "", false⟩,
        .response ⟨500, "500 Internal Server Error", "", false⟩] noDirs)
      "/srv/neworg/proj.git" "neworg" "proj" 0).trace =
      [getRequest demoCfg "/api/v1/repos/neworg/proj",
        getRequest demoCfg "/api/v1/orgs/neworg"] := by
  refine ⟨?_, ?_, ?_⟩ <;> decide

/-- C5, amended: when the repository lookup reports `404 Not Found` and the
organization resolution yields a record, `processGitRepo` issues its HTTP
calls in this order: the GET of the repository, the GET of the organization,
the POST creating the organization exactly when that GET failed with
`404 Not Found`, and last one POST to `/api/v1/repos/migrate` whose body holds
the path, the name and the id of the organization record. -/
theorem processGitRepo_absent_call_order {σ : Type} (cfg : Config) (env : Env σ)
    (path org name : String) (s : σ) (e : GoError) (o : RepoResponse)
    (rec : OrganizationResponse)
    (hlookup : (httpGet cfg env env.unmarshalRepo (repoURI org name)
      ({} : RepoResponse) s).out = .ret (some e, o))
    (h404 : e.Error = "404 Not Found")
    (horg : (organization cfg env org
      (env.roundTrip s (getRequest cfg (repoURI org name))).2).out = .ret rec) :
    requests (processGitRepo cfg env path org name s).trace =
      getRequest cfg (repoURI org name) :: getRequest cfg (orgURI org) ::
        ((if failed404 (httpGet cfg env env.unmarshalOrg (orgURI org)
              ({} : OrganizationResponse)
              (env.roundTrip s (getRequest cfg (repoURI org name))).2).out = true
            then [postRequest cfg "/api/v1/orgs" (.organization { Username := org })]
            else []) ++
          [postRequest cfg "/api/v1/repos/migrate"
            (.migrate { CloneAddr := path, RepoName := name, UID := rec.ID })]) := by
  have ht := repo_forge_trace cfg env org name s
  have hr : (repo cfg env org name s).out = .ret {} := by
    simp [repo, Result.andThen, hlookup, h404]
  have hq := organization_requests cfg env org
    (env.roundTrip s (getRequest cfg (repoURI org name))).2
  have hp := httpPost_trace cfg env env.unmarshalRepo "/api/v1/repos/migrate"
    (.migrate { CloneAddr := path, RepoName := name, UID := rec.ID }) ({} : RepoResponse)
    (organization cfg env org (env.roundTrip s (getRequest cfg (repoURI org name))).2).forge
  have hz : ({} : RepoResponse).ID = 0 := rfl
  unfold processGitRepo
  simp only [Result.andThen, hr, ht.1, ht.2, hz, ne_eq, not_true_eq_false, if_false, horg]
  cases hpo : (httpPost cfg env env.unmarshalRepo "/api/v1/repos/migrate"
      (.migrate { CloneAddr := path, RepoName := name, UID := rec.ID }) ({} : RepoResponse)
      (organization cfg env org
        (env.roundTrip s (getRequest cfg (repoURI org name))).2).forge).out with
  | fatal => simp [requests, requests_append, hq, hp.1]
  | ret res =>
    rcases res with ⟨e2, r2⟩
    cases e2 <;> simp [requests, requests_append, hq, hp.1]

/-- C5 amended, the scenario `neworg/proj.git` against a forge without `neworg` that
creates it with id 42: GET repository (404), GET organization (404), POST
organization with the username `neworg`, POST migrate with UID 42. -/
theorem processGitRepo_absent_call_order_witness :
    requests (processGitRepo demoCfg
        (scripted [.response ⟨404, "404 Not Found", "", false⟩,
          .response ⟨404, "404 Not Found", "", false⟩,
          .response ⟨201, "201 Created", "42", false⟩,
          .response ⟨201, "201 Created", "1", false⟩] noDirs)
        "/srv/neworg/proj.git" "neworg" "proj" 0).trace =
      [getRequest demoCfg "/api/v1/repos/neworg/proj",
        getRequest demoCfg "/api/v1/orgs/neworg",
        postRequest demoCfg "/api/v1/orgs" (.organization { Username := "neworg" }),
        postRequest demoCfg "/api/v1/repos/migrate"
          (.migrate { CloneAddr := "/srv/neworg/proj.git", RepoName := "proj", UID := 42 })] :=
  processGitRepo_absent_call_order demoCfg
    (scripted [.response ⟨404, "404 Not Found", "", false⟩,
      .response ⟨404, "404 Not Found", "", false⟩,
      .response ⟨201, "201 Created", "42", false⟩,
      .response ⟨201, "201 Created", "1", false⟩] noDirs)
    "/srv/neworg/proj.git" "neworg" "proj" 0 (.status "404 Not Found") {} { ID := 42 }
    (by decide) (by decide) (by decide)

/-! ## The walk follows its plan -/

section Plan

variable {σ : Type}

theorem andThen_stop {α : Type} (r : Result σ α) :
    (r.andThen fun _ s => (⟨.fatal, s, []⟩ : Result σ Unit)) = ⟨.fatal, r.forge, r.trace⟩ := by
  unfold Result.andThen
  cases r.out <;> simp

theorem andThen_assoc {α β γ : Type} (r : Result σ α) (k : α → σ → Result σ β)
    (k2 : β → σ → Result σ γ) :
    (r.andThen k).andThen k2 = r.andThen fun a s => (k a s).andThen k2 := by
  unfold Result.andThen
  cases hr : r.out with
  | fatal => simp
  | ret a =>
    simp only
    cases hk : (k a r.forge).out <;> simp

theorem runPlan_append (cfg : Config) (env : Env σ) (a b : List Step) (s : σ) :
    runPlan cfg env (a ++ b) s =
      (runPlan cfg env a s).andThen fun _ s1 => runPlan cfg env b s1 := by
  induction a generalizing s with
  | nil => rfl
  | cons st rest ih =>
    cases st with
    | stop => simp [runPlan, Result.andThen]
    | trigger path org name =>
      simp only [List.cons_append, runPlan, andThen_assoc]
      congr 1
      funext _ s1
      exact ih s1

theorem processOrgFiles_eq_runPlan (cfg : Config) (env : Env σ) (path org : String)
    (files : List FileInfo) (s : σ) :
    processOrgFiles cfg env path org files s = runPlan cfg env (orgPlan path org files) s := by
  induction files generalizing s with
  | nil => rfl
  | cons f fs ih =>
    by_cases hd : f.IsDir = true
    · by_cases hs : HasSuffix f.Name ".git" = true
      · simp only [processOrgFiles, orgPlan, hd, hs, if_true, runPlan]
        congr 1
        funext _ s1
        exact ih s1
      · simp [processOrgFiles, orgPlan, hd, hs, runPlan]
    · simp [processOrgFiles, orgPlan, hd, ih]

theorem processOrg_eq_runPlan (cfg : Config) (env : Env σ) (path org : String) (s : σ) :
    processOrg cfg env path org s = runPlan cfg env (orgDirPlan env.readDir path org) s := by
  unfold processOrg orgDirPlan
  cases env.readDir path with
  | none => rfl
  | some files => exact processOrgFiles_eq_runPlan cfg env path org files s

theorem processFiles_eq_runPlan (cfg : Config) (env : Env σ) (path : String)
    (files : List FileInfo) (s : σ) :
    processFiles cfg env path files s = runPlan cfg env (rootPlan env.readDir path files) s := by
  induction files generalizing s with
  | nil => rfl
  | cons f fs ih =>
    by_cases hd : f.IsDir = true
    · simp only [processFiles, rootPlan, hd, if_true, runPlan_append, processOrg_eq_runPlan]
      congr 1
      funext _ s1
      exact ih s1
    · simp [processFiles, rootPlan, hd, ih]

theorem process_eq_runPlan (cfg : Config) (env : Env σ) (root : String)
    (files : List FileInfo) (s : σ) (h : env.readDir root = some files) :
    process cfg env root s = runPlan cfg env (rootPlan env.readDir root files) s := by
  simp [process, h, processFiles_eq_runPlan]

theorem processOrgFiles_append (cfg : Config) (env : Env σ) (path org : String)
    (a b : List FileInfo) (s : σ) :
    processOrgFiles cfg env path org (a ++ b) s =
      (processOrgFiles cfg env path org a s).andThen fun _ s1 =>
        processOrgFiles cfg env path org b s1 := by
  induction a generalizing s with
  | nil => rfl
  | cons f fs ih =>
    by_cases hd : f.IsDir = true
    · by_cases hs : HasSuffix f.Name ".git" = true
      · simp only [List.cons_append, processOrgFiles, hd, hs, if_true, andThen_assoc]
        congr 1
        funext _ s1
        exact ih s1
      · simp [processOrgFiles, hd, hs, Result.andThen]
    · simp [processOrgFiles, hd, ih]

theorem processFiles_append (cfg : Config) (env : Env σ) (path : String)
    (a b : List FileInfo) (s : σ) :
    processFiles cfg env path (a ++ b) s =
      (processFiles cfg env path a s).andThen fun _ s1 => processFiles cfg env path b s1 := by
  induction a generalizing s with
  | nil => rfl
  | cons f fs ih =>
    by_cases hd : f.IsDir = true
    · simp only [List.cons_append, processFiles, hd, if_true, andThen_assoc]
      congr 1
      funext _ s1
      exact ih s1
    · simp [processFiles, hd, ih]

end Plan

/-! ## The directory walker (C4, C6, C10) -/

/-- C10: entries that are not directories are skipped at both levels: the
walk over any listings is the walk over the same listings with every entry
that is not a directory removed (same outcome, same forge state, same calls),
whatever the names of those entries; so a regular file inside an organization
directory or the root, with or without the suffix `.git`, changes nothing. -/
theorem process_skips_non_directories {σ : Type} (cfg : Config) (env : Env σ)
    (root : String) (s : σ) :
    process cfg env root s =
      process cfg { env with readDir := dirsOnly env.readDir } root s ∧
    (∀ path org (f : FileInfo) files t, f.IsDir = false →
      processOrgFiles cfg env path org (f :: files) t =
        processOrgFiles cfg env path org files t) ∧
    (∀ path (f : FileInfo) files t, f.IsDir = false →
      processFiles cfg env path (f :: files) t = processFiles cfg env path files t) := by
  have horg : ∀ path org (files : List FileInfo) t,
      processOrgFiles cfg { env with readDir := dirsOnly env.readDir } path org
          (files.filter fun f => f.IsDir) t =
        processOrgFiles cfg env path org files t := by
    intro path org files
    induction files with
    | nil => intro t; rfl
    | cons f fs ih =>
      intro t
      by_cases hd : f.IsDir = true
      · by_cases hs : HasSuffix f.Name ".git" = true
        · simp only [List.filter_cons, hd, if_true, processOrgFiles, hs]
          have hrepo : ∀ p o n u,
              processGitRepo cfg { env with readDir := dirsOnly env.readDir } p o n u =
                processGitRepo cfg env p o n u := fun _ _ _ _ => rfl
          rw [hrepo]
          congr 1
          funext _ s1
          exact ih s1
        · simp [List.filter_cons, hd, processOrgFiles, hs]
      · simp [List.filter_cons, hd, processOrgFiles, ih]
  have hdir : ∀ path org t,
      processOrg cfg { env with readDir := dirsOnly env.readDir } path org t =
        processOrg cfg env path org t := by
    intro path org t
    unfold processOrg
    simp only [dirsOnly]
    cases env.readDir path with
    | none => rfl
    | some files => exact horg path org files t
  have hroot : ∀ path (files : List FileInfo) t,
      processFiles cfg { env with readDir := dirsOnly env.readDir } path
          (files.filter fun f => f.IsDir) t =
        processFiles cfg env path files t := by
    intro path files
    induction files with
    | nil => intro t; rfl
    | cons f fs ih =>
      intro t
      by_cases hd : f.IsDir = true
      · simp only [List.filter_cons, hd, if_true, processFiles, hdir]
        congr 1
        funext _ s1
        exact ih s1
      · simp [List.filter_cons, hd, processFiles, ih]
  refine ⟨?_, ?_, ?_⟩
  · unfold process
    simp only [dirsOnly]
    cases env.readDir root with
    | none => rfl
    | some files => exact (hroot root files s).symm
  · intro path org f files t hf
    simp [processOrgFiles, hf]
  · intro path f files t hf
    simp [processFiles, hf]

/-- C10, at the tree `/srv/acme/{widgets.git, gizmos.git}` with the regular
file `/srv/README`: the walk is the walk over the tree without the file. -/
theorem process_skips_non_directories_witness :
    process demoCfg (scripted [.response ⟨200, "200 OK", "7", false⟩] acmeTree) "/srv" 0 =
      process demoCfg
        { scripted [.response ⟨200, "200 OK", "7", false⟩] acmeTree with
          readDir := dirsOnly acmeTree } "/srv" 0 :=
  (process_skips_non_directories demoCfg
    (scripted [.response ⟨200, "200 OK", "7", false⟩] acmeTree) "/srv" 0).1

/-- C6: when the root listing holds an organization directory `O` whose
listing holds a directory `bad` without the suffix `.git`, the walk ends with a
fatal error, and what it has done by then (its calls and the forge state) is
what the walk does over the entries that precede `bad`: the root entries
before `O`, then the entries of `O` before `bad`.  Hence nothing is invoked
for an entry that follows, in that organization or a later one. -/
theorem process_fatal_at_directory_without_suffix {σ : Type} (cfg : Config) (env : Env σ)
    (root : String) (s : σ) (A B L1 L2 : List FileInfo) (O bad : FileInfo)
    (hroot : env.readDir root = some (A ++ O :: B))
    (hO : O.IsDir = true)
    (horg : env.readDir (root ++ "/" ++ O.Name) = some (L1 ++ bad :: L2))
    (hbad : bad.IsDir = true)
    (hsfx : HasSuffix bad.Name ".git" = false) :
    process cfg env root s =
      ⟨.fatal,
        ((processFiles cfg env root A s).andThen fun _ s1 =>
          processOrgFiles cfg env (root ++ "/" ++ O.Name) O.Name L1 s1).forge,
        ((processFiles cfg env root A s).andThen fun _ s1 =>
          processOrgFiles cfg env (root ++ "/" ++ O.Name) O.Name L1 s1).trace⟩ := by
  have hstop : ∀ t, processOrgFiles cfg env (root ++ "/" ++ O.Name) O.Name (bad :: L2) t =
      ⟨.fatal, t, []⟩ := by
    intro t
    simp [processOrgFiles, hbad, hsfx]
  have hdir : ∀ t, processOrg cfg env (root ++ "/" ++ O.Name) O.Name t =
      (processOrgFiles cfg env (root ++ "/" ++ O.Name) O.Name L1 t).andThen
        fun _ s2 => ⟨.fatal, s2, []⟩ := by
    intro t
    simp only [processOrg, horg, processOrgFiles_append]
    congr 1
    funext _ s2
    exact hstop s2
  have hrest : ∀ t, processFiles cfg env root (O :: B) t =
      (processOrgFiles cfg env (root ++ "/" ++ O.Name) O.Name L1 t).andThen
        fun _ s2 => ⟨.fatal, s2, []⟩ := by
    intro t
    simp only [processFiles, hO, if_true, hdir, andThen_assoc]
    congr 1
  simp only [process, hroot, processFiles_append]
  rw [← andThen_stop, andThen_assoc]
  congr 1
  funext _ s1
  exact hrest s1

/-- C6, at the tree `/srv/acme/{widgets.git, notes, gizmos.git}`,
`/srv/zeta/z.git` and a forge that reports `acme/widgets`: the walk looks
`widgets` up, ends at `notes`, and invokes nothing for `gizmos.git` or
`z.git`. -/
theorem process_fatal_at_directory_without_suffix_witness :
    process demoCfg (scripted [.response ⟨200, "200 OK", "7", false⟩] brokenTree) "/srv" 0 =
      ⟨.fatal, 1,
        [.call "/srv/acme/widgets.git" "acme" "widgets",
          .http (getRequest demoCfg "/api/v1/repos/acme/widgets")
            (.response ⟨200, "200 OK", "7", false⟩)]⟩ :=
  process_fatal_at_directory_without_suffix demoCfg
    (scripted [.response ⟨200, "200 OK", "7", false⟩] brokenTree) "/srv" 0
    [] [⟨"zeta", true⟩] [⟨"widgets.git", true⟩] [⟨"gizmos.git", true⟩]
    ⟨"acme", true⟩ ⟨"notes", true⟩ (by decide) rfl (by decide) rfl (by decide)

/-- A name with the suffix `.git` is its slice without the last four
characters followed by `.git`. -/
theorem dropLast4_append (D : String) (h : HasSuffix D ".git" = true) :
    dropLast4 D ++ ".git" = D := by
  unfold HasSuffix at h
  simp only [Bool.and_eq_true, decide_eq_true_eq, beq_iff_eq] at h
  apply String.ext
  have h4 : (".git" : String).length = 4 := by decide
  rw [h4] at h
  simp only [dropLast4, String.data_append]
  rw [← h.2]
  exact List.take_append_drop _ _

/-- The organization resolution records no invocation. -/
theorem calls_organization {σ : Type} (cfg : Config) (env : Env σ) (name : String) (s : σ) :
    calls (organization cfg env name s).trace = [] := by
  have ht := httpGet_trace cfg env env.unmarshalOrg (orgURI name) ({} : OrganizationResponse) s
  unfold organization Result.andThen
  cases hg : (httpGet cfg env env.unmarshalOrg (orgURI name)
      ({} : OrganizationResponse) s).out with
  | fatal => simp [ht.1, calls]
  | ret res =>
    rcases res with ⟨e, o⟩
    cases e with
    | none => simp [ht.1, calls]
    | some err =>
      by_cases h4 : err.Error = "404 Not Found"
      · have hp := httpPost_trace cfg env env.unmarshalOrg "/api/v1/orgs"
          (.organization { Username := name }) o
          (httpGet cfg env env.unmarshalOrg (orgURI name) ({} : OrganizationResponse) s).forge
        cases hq : (httpPost cfg env env.unmarshalOrg "/api/v1/orgs"
            (.organization { Username := name }) o
            (httpGet cfg env env.unmarshalOrg (orgURI name)
              ({} : OrganizationResponse) s).forge).out with
        | fatal => simp [h4, hq, ht.1, hp.1, calls]
        | ret res2 =>
          rcases res2 with ⟨e2, c⟩
          cases e2 <;> simp [h4, hq, ht.1, hp.1, calls]
      · simp [h4, ht.1, calls]

/-- An invocation of `processGitRepo` records itself first and then only
HTTP calls. -/
theorem processGitRepo_trace_shape {σ : Type} (cfg : Config) (env : Env σ)
    (path org name : String) (s : σ) :
    ∃ body, (processGitRepo cfg env path org name s).trace = .call path org name :: body ∧
      calls body = [] := by
  have ht := repo_forge_trace cfg env org name s
  cases hr : (repo cfg env org name s).out with
  | fatal =>
    refine ⟨(repo cfg env org name s).trace, ?_, ?_⟩
    · simp [processGitRepo, Result.andThen, hr]
    · simp [ht.2, calls]
  | ret r =>
    by_cases hid : r.ID = 0
    · cases ho : (organization cfg env org (repo cfg env org name s).forge).out with
      | fatal =>
        refine ⟨(repo cfg env org name s).trace ++
          (organization cfg env org (repo cfg env org name s).forge).trace, ?_, ?_⟩
        · simp [processGitRepo, Result.andThen, hr, hid, ho]
        · simp [ht.2, calls, calls_append, calls_organization]
      | ret o =>
        have hp := httpPost_trace cfg env env.unmarshalRepo "/api/v1/repos/migrate"
          (.migrate { CloneAddr := path, RepoName := name, UID := o.ID }) ({} : RepoResponse)
          (organization cfg env org (repo cfg env org name s).forge).forge
        refine ⟨(repo cfg env org name s).trace ++
          ((organization cfg env org (repo cfg env org name s).forge).trace ++
            (httpPost cfg env env.unmarshalRepo "/api/v1/repos/migrate"
              (.migrate { CloneAddr := path, RepoName := name, UID := o.ID })
              ({} : RepoResponse)
              (organization cfg env org (repo cfg env org name s).forge).forge).trace), ?_, ?_⟩
        · cases hq : (httpPost cfg env env.unmarshalRepo "/api/v1/repos/migrate"
              (.migrate { CloneAddr := path, RepoName := name, UID := o.ID })
              ({} : RepoResponse)
              (organization cfg env org (repo cfg env org name s).forge).forge).out with
          | fatal => simp [processGitRepo, Result.andThen, hr, hid, ho, hq]
          | ret res =>
            rcases res with ⟨e2, c⟩
            cases e2 <;> simp [processGitRepo, Result.andThen, hr, hid, ho, hq]
        · simp [ht.2, calls, calls_append, calls_organization, hp.1]
    · refine ⟨(repo cfg env org name s).trace, ?_, ?_⟩
      · simp [processGitRepo, Result.andThen, hr, hid]
      · simp [ht.2, calls]

theorem calls_processGitRepo {σ : Type} (cfg : Config) (env : Env σ)
    (path org name : String) (s : σ) :
    calls (processGitRepo cfg env path org name s).trace = [(path, org, name)] := by
  obtain ⟨body, hb, hc⟩ := processGitRepo_trace_shape cfg env path org name s
  rw [hb]
  simp [calls, hc]

/-- Over a listing all of whose directories carry the suffix, the plan of
`processOrg` is one invocation per directory. -/
theorem orgPlan_of_suffixed (path org : String) (files : List FileInfo)
    (h : ∀ D ∈ files, D.IsDir = true → HasSuffix D.Name ".git" = true) :
    orgPlan path org files =
      (files.filter fun D => D.IsDir).map fun D =>
        Step.trigger (path ++ "/" ++ D.Name) org (dropLast4 D.Name) := by
  induction files with
  | nil => rfl
  | cons f fs ih =>
    have ih2 := ih fun D hD => h D (List.mem_cons_of_mem f hD)
    by_cases hd : f.IsDir = true
    · have hs := h f (List.mem_cons_self f fs) hd
      simp [orgPlan, hd, hs, ih2, List.filter_cons]
    · simp [orgPlan, hd, ih2, List.filter_cons]

/-- Over well-formed listings the plan of the walk is the expected
invocations. -/
theorem rootPlan_of_suffixed (readDir : String → Option (List FileInfo)) (root : String)
    (rootFiles : List FileInfo)
    (h : ∀ O ∈ rootFiles, O.IsDir = true →
      ∃ files, readDir (root ++ "/" ++ O.Name) = some files ∧
        ∀ D ∈ files, D.IsDir = true → HasSuffix D.Name ".git" = true) :
    rootPlan readDir root rootFiles =
      (expectedCalls readDir root rootFiles).map fun c => Step.trigger c.1 c.2.1 c.2.2 := by
  induction rootFiles with
  | nil => rfl
  | cons f fs ih =>
    have ih2 := ih fun O hO => h O (List.mem_cons_of_mem f hO)
    by_cases hd : f.IsDir = true
    · obtain ⟨files, hf, hs⟩ := h f (List.mem_cons_self f fs) hd
      have he : expectedCalls readDir root (f :: fs) =
          ((files.filter fun D => D.IsDir).map fun D =>
            (root ++ "/" ++ f.Name ++ "/" ++ D.Name, f.Name, dropLast4 D.Name)) ++
          expectedCalls readDir root fs := by
        simp [expectedCalls, List.filter_cons, hd, hf]
      rw [he]
      simp only [rootPlan, hd, if_true, orgDirPlan, hf, orgPlan_of_suffixed _ _ files hs, ih2,
        List.map_append, List.map_map]
      rfl
    · have he : expectedCalls readDir root (f :: fs) = expectedCalls readDir root fs := by
        simp [expectedCalls, List.filter_cons, hd]
      rw [he]
      simp [rootPlan, hd, ih2]

/-- A plan of invocations alone makes them in order, up to the first that
ends the process. -/
theorem calls_runPlan_triggers {σ : Type} (cfg : Config) (env : Env σ)
    (cs : List (String × String × String)) (s : σ) :
    calls (runPlan cfg env (cs.map fun c => Step.trigger c.1 c.2.1 c.2.2) s).trace <+: cs ∧
    ((runPlan cfg env (cs.map fun c => Step.trigger c.1 c.2.1 c.2.2) s).out = .ret () →
      calls (runPlan cfg env (cs.map fun c => Step.trigger c.1 c.2.1 c.2.2) s).trace = cs) := by
  induction cs generalizing s with
  | nil => exact ⟨by simp [runPlan, calls], fun _ => by simp [runPlan, calls]⟩
  | cons c rest ih =>
    have hc := calls_processGitRepo cfg env c.1 c.2.1 c.2.2 s
    simp only [List.map_cons, runPlan]
    unfold Result.andThen
    cases hr : (processGitRepo cfg env c.1 c.2.1 c.2.2 s).out with
    | fatal =>
      simp only [hc]
      exact ⟨⟨rest, rfl⟩, fun h => by simp at h⟩
    | ret u =>
      simp only [calls_append, hc]
      have ih2 := ih (processGitRepo cfg env c.1 c.2.1 c.2.2 s).forge
      refine ⟨?_, fun h => ?_⟩
      · simpa using ih2.1
      · simpa using ih2.2 h

/-- C4, as stated, fails: over the tree `/srv/acme/{widgets.git, gizmos.git}`
and a forge that answers the first lookup with status 500, the walk ends
during the invocation for `widgets.git` and never invokes the trigger for
`gizmos.git`. -/
theorem process_stops_after_failed_invocation :
    expectedCalls acmeTree "/srv" [⟨"README", false⟩, ⟨"acme", true⟩] =
      [("/srv/acme/widgets.git", "acme", "widgets"),
        ("/srv/acme/gizmos.git", "acme", "gizmos")] ∧
    (process demoCfg
      (scripted [.response ⟨500, "500 Internal Server Error", "", false⟩] acmeTree)
      "/srv" 0).out = .fatal ∧
    calls (process demoCfg
      (scripted [.response ⟨500, "500 Internal Server Error", "", false⟩] acmeTree)
      "/srv" 0).trace = [("/srv/acme/widgets.git", "acme", "widgets")] := by
  refine ⟨?_, ?_, ?_⟩ <;> decide

/-- C4, amended: over listings in which every sub-directory of every
organization directory has a name ending in `.git`, `process(R)` invokes the
trigger for the repository directories in listing order (organizations in the
order of the root listing, repositories in the order of their organization's
listing), each at most once, with the path `R/O/D`, the organization `O` and
the name `D` without its last four characters, so that name + `.git` = `D`.
The invocations it makes are an initial part of that list, and all of it when
the walk returns normally (no invocation ends the process). -/
theorem process_invokes_trigger_in_listing_order {σ : Type} (cfg : Config) (env : Env σ)
    (root : String) (s : σ) (rootFiles : List FileInfo)
    (hroot : env.readDir root = some rootFiles)
    (hlist : ∀ O ∈ rootFiles, O.IsDir = true →
      ∃ files, env.readDir (root ++ "/" ++ O.Name) = some files ∧
        ∀ D ∈ files, D.IsDir = true → HasSuffix D.Name ".git" = true) :
    calls (process cfg env root s).trace <+: expectedCalls env.readDir root rootFiles ∧
    ((process cfg env root s).out = .ret () →
      calls (process cfg env root s).trace = expectedCalls env.readDir root rootFiles) ∧
    (∀ c ∈ expectedCalls env.readDir root rootFiles,
      ∃ O D, c = (root ++ "/" ++ O ++ "/" ++ D, O, dropLast4 D) ∧ dropLast4 D ++ ".git" = D) := by
  rw [process_eq_runPlan cfg env root rootFiles s hroot,
    rootPlan_of_suffixed env.readDir root rootFiles hlist]
  refine ⟨(calls_runPlan_triggers cfg env _ s).1, (calls_runPlan_triggers cfg env _ s).2, ?_⟩
  intro c hc
  simp only [expectedCalls, List.mem_flatMap, List.mem_filter, List.mem_map] at hc
  obtain ⟨O, ⟨hO, hOd⟩, D, ⟨hD, hDd⟩, rfl⟩ := hc
  obtain ⟨files, hf, hs⟩ := hlist O hO hOd
  rw [hf] at hD
  exact ⟨O.Name, D.Name, rfl, dropLast4_append D.Name (hs D hD hDd)⟩

/-- C4 amended, at the tree `/srv/acme/{widgets.git, gizmos.git}` and a forge
that reports both repositories: the walk returns and has invoked the trigger
for `widgets.git`, then for `gizmos.git`. -/
theorem process_invokes_trigger_in_listing_order_witness :
    calls (process demoCfg
      (scripted [.response ⟨200, "200 OK", "7", false⟩,
        .response ⟨200, "200 OK", "8", false⟩] acmeTree) "/srv" 0).trace =
      [("/srv/acme/widgets.git", "acme", "widgets"),
        ("/srv/acme/gizmos.git", "acme", "gizmos")] :=
  (process_invokes_trigger_in_listing_order demoCfg
    (scripted [.response ⟨200, "200 OK", "7", false⟩,
      .response ⟨200, "200 OK", "8", false⟩] acmeTree) "/srv" 0
    [⟨"README", false⟩, ⟨"acme", true⟩] (by decide) (by decide)).2.1 (by decide)

/-! ## At most one migration (C2) -/

section AtMostOnce

variable {σ : Type}

/-- Counting over two traces in a row: the flag the second starts with is the
one the first leaves. -/
theorem countFor_append (p : Event → Bool) (org name : String) (cur : Bool)
    (a b : List Event) :
    ∃ cur2, countFor p org name cur (a ++ b) =
      countFor p org name cur a + countFor p org name cur2 b := by
  induction a generalizing cur with
  | nil => exact ⟨cur, by simp [countFor]⟩
  | cons e es ih =>
    cases e with
    | call path o n =>
      obtain ⟨c2, h2⟩ := ih (decide (o = org) && decide (n = name))
      exact ⟨c2, by simpa [countFor] using h2⟩
    | http req reply =>
      obtain ⟨c2, h2⟩ := ih cur
      exact ⟨c2, by simp [countFor, h2, Nat.add_assoc]⟩

/-- Counting over a stretch without invocation markers. -/
theorem countFor_of_no_calls (p : Event → Bool) (org name : String) (cur : Bool)
    (a b : List Event) (ha : calls a = []) :
    countFor p org name cur (a ++ b) =
      (if cur = true then a.countP p else 0) + countFor p org name cur b := by
  induction a with
  | nil => simp [countFor]
  | cons e es ih =>
    cases e with
    | call path o n => simp [calls] at ha
    | http req reply =>
      have ih2 := ih (by simpa [calls] using ha)
      cases cur <;> by_cases hp : p (.http req reply) = true <;>
        simp [countFor, ih2, hp, List.countP_cons]
      omega

/-- Counting over the trace of one invocation followed by another trace. -/
theorem countFor_processGitRepo (cfg : Config) (env : Env σ) (p : Event → Bool)
    (hp : ∀ a b c, p (.call a b c) = false) (org name : String) (cur : Bool)
    (path o n : String) (s : σ) (t : List Event) :
    countFor p org name cur ((processGitRepo cfg env path o n s).trace ++ t) =
      (if (decide (o = org) && decide (n = name)) = true
        then (processGitRepo cfg env path o n s).trace.countP p else 0) +
      countFor p org name (decide (o = org) && decide (n = name)) t := by
  obtain ⟨body, hb, hc⟩ := processGitRepo_trace_shape cfg env path o n s
  rw [hb]
  have h1 : countFor p org name cur (Event.call path o n :: body ++ t) =
      countFor p org name (decide (o = org) && decide (n = name)) (body ++ t) := rfl
  have h2 : (Event.call path o n :: body).countP p = body.countP p := by
    simp [List.countP_cons, hp]
  rw [h1, h2, countFor_of_no_calls p org name _ body t hc]

/-- The starting flag plays no role for the trace of a plan. -/
theorem countFor_runPlan_flag (cfg : Config) (env : Env σ) (p : Event → Bool)
    (org name : String) (cur : Bool) (plan : List Step) (s : σ) :
    countFor p org name cur (runPlan cfg env plan s).trace =
      countFor p org name false (runPlan cfg env plan s).trace := by
  cases plan with
  | nil => simp [runPlan, countFor]
  | cons st rest =>
    cases st with
    | stop => simp [runPlan, countFor]
    | trigger path o n =>
      obtain ⟨body, hb, _⟩ := processGitRepo_trace_shape cfg env path o n s
      simp only [runPlan]
      unfold Result.andThen
      cases (processGitRepo cfg env path o n s).out <;> simp [hb, countFor]

/-- A predicate on forge states that every request preserves holds after
each piece of the program. -/
theorem andThen_forge_inv {α β : Type} (P : σ → Prop) (r : Result σ α)
    (k : α → σ → Result σ β) (hr : P r.forge) (hk : ∀ a t, P t → P (k a t).forge) :
    P (r.andThen k).forge := by
  unfold Result.andThen
  cases r.out with
  | fatal => exact hr
  | ret a => exact hk a r.forge hr

theorem organization_forge_inv (cfg : Config) (env : Env σ) (P : σ → Prop)
    (hst : ∀ s req, P s → P (env.roundTrip s req).2) (name : String) (s : σ) (hs : P s) :
    P (organization cfg env name s).forge := by
  unfold organization
  apply andThen_forge_inv
  · rw [(httpGet_trace cfg env env.unmarshalOrg (orgURI name) _ s).2]
    exact hst s _ hs
  · intro res t ht
    rcases res with ⟨e, o⟩
    cases e with
    | none => exact ht
    | some err =>
      by_cases h4 : err.Error = "404 Not Found"
      · simp only [h4, if_true]
        apply andThen_forge_inv
        · rw [(httpPost_trace cfg env env.unmarshalOrg "/api/v1/orgs" _ o t).2]
          exact hst t _ ht
        · intro res2 t2 ht2
          rcases res2 with ⟨e2, c⟩
          cases e2 <;> exact ht2
      · simp only [h4, if_false]
        exact ht

theorem processGitRepo_forge_inv (cfg : Config) (env : Env σ) (P : σ → Prop)
    (hst : ∀ s req, P s → P (env.roundTrip s req).2) (path org name : String) (s : σ)
    (hs : P s) : P (processGitRepo cfg env path org name s).forge := by
  unfold processGitRepo
  apply andThen_forge_inv
  · exact hs
  · intro _ t0 ht0
    apply andThen_forge_inv
    · rw [(repo_forge_trace cfg env org name t0).1]
      exact hst t0 _ ht0
    · intro r t1 ht1
      by_cases hid : r.ID = 0
      · simp only [hid, ne_eq, not_true_eq_false, if_false]
        apply andThen_forge_inv
        · exact organization_forge_inv cfg env P hst org t1 ht1
        · intro o t2 ht2
          apply andThen_forge_inv
          · rw [(httpPost_trace cfg env env.unmarshalRepo "/api/v1/repos/migrate" _ _ t2).2]
            exact hst t2 _ ht2
          · intro res t3 ht3
            rcases res with ⟨e, c⟩
            cases e <;> exact ht3
      · simp only [hid, ne_eq, not_false_eq_true, if_true]
        exact ht1

theorem runPlan_forge_inv (cfg : Config) (env : Env σ) (P : σ → Prop)
    (hst : ∀ s req, P s → P (env.roundTrip s req).2) (plan : List Step) (s : σ)
    (hs : P s) : P (runPlan cfg env plan s).forge := by
  induction plan generalizing s with
  | nil => exact hs
  | cons st rest ih =>
    cases st with
    | stop => exact hs
    | trigger path o n =>
      simp only [runPlan]
      apply andThen_forge_inv
      · exact processGitRepo_forge_inv cfg env P hst path o n s hs
      · intro _ t ht
        exact ih t ht

end AtMostOnce

section Migrations

variable {σ : Type}

theorem isMigrate201_le (cfg : Config) (e : Event) (h : isMigrate201 cfg e = true) :
    isMigrate cfg e = true := by
  cases e with
  | call a b c => simp [isMigrate201] at h
  | http req reply =>
    cases reply with
    | fatal => simp [isMigrate201] at h
    | response resp =>
      simp only [isMigrate201, Bool.and_eq_true] at h
      exact h.1

theorem countP_isMigrate201_le (cfg : Config) (t : List Event) :
    t.countP (isMigrate201 cfg) ≤ t.countP (isMigrate cfg) :=
  List.countP_mono_left fun e _ h => isMigrate201_le cfg e h

/-- A trace without invocation markers whose requests are no migrate POST
holds no migrate POST. -/
theorem countP_isMigrate_zero (cfg : Config) (t : List Event) (hc : calls t = [])
    (hr : ∀ req ∈ requests t, isMigrateRequest cfg req = false) :
    t.countP (isMigrate cfg) = 0 := by
  induction t with
  | nil => rfl
  | cons e es ih =>
    cases e with
    | call a b c => simp [calls] at hc
    | http req reply =>
      have h1 : isMigrateRequest cfg req = false := hr req (by simp [requests])
      have h2 := ih (by simpa [calls] using hc) fun q hq => hr q (by simp [requests, hq])
      simp [List.countP_cons, isMigrate, h1, h2]

theorem countP_isMigrate_organization (cfg : Config) (env : Env σ) (name : String) (s : σ) :
    (organization cfg env name s).trace.countP (isMigrate cfg) = 0 := by
  apply countP_isMigrate_zero cfg _ (calls_organization cfg env name s)
  intro req hreq
  rw [organization_requests] at hreq
  have h1 : isMigrateRequest cfg (getRequest cfg (orgURI name)) = false := by
    simp [isMigrateRequest, getRequest]
  have h2 : isMigrateRequest cfg
      (postRequest cfg "/api/v1/orgs" (.organization { Username := name })) = false := by
    simp [isMigrateRequest, postRequest]
  by_cases hc : failed404 (httpGet cfg env env.unmarshalOrg (orgURI name)
      ({} : OrganizationResponse) s).out = true
  · rw [if_pos hc] at hreq
    simp only [List.mem_cons, List.mem_singleton, List.not_mem_nil, or_false] at hreq
    rcases hreq with rfl | rfl
    · exact h1
    · exact h2
  · rw [if_neg hc] at hreq
    simp only [List.mem_cons, List.not_mem_nil, or_false] at hreq
    rw [hreq]
    exact h1

theorem countP_isMigrate_repo (cfg : Config) (env : Env σ) (owner name : String) (s : σ) :
    (repo cfg env owner name s).trace.countP (isMigrate cfg) = 0 := by
  rw [(repo_forge_trace cfg env owner name s).2]
  simp [List.countP_cons, isMigrate, isMigrateRequest, getRequest]

/-- One invocation holds at most one migrate POST, and when it returns
normally that POST, if any, was answered with status 201. -/
theorem processGitRepo_migrate_count (cfg : Config) (env : Env σ) (path org name : String)
    (s : σ) :
    (processGitRepo cfg env path org name s).trace.countP (isMigrate cfg) ≤ 1 ∧
    ((processGitRepo cfg env path org name s).out = .ret () →
      (processGitRepo cfg env path org name s).trace.countP (isMigrate201 cfg) =
        (processGitRepo cfg env path org name s).trace.countP (isMigrate cfg)) := by
  have hrc := countP_isMigrate_repo cfg env org name s
  have hr2 : (repo cfg env org name s).trace.countP (isMigrate201 cfg) = 0 :=
    Nat.le_zero.mp (hrc ▸ countP_isMigrate201_le cfg _)
  have hcall : ∀ p : Event → Bool, p (.call path org name) = false → ∀ t : List Event,
      (Event.call path org name :: t).countP p = t.countP p := by
    intro p hp t
    simp [List.countP_cons, hp]
  cases hr : (repo cfg env org name s).out with
  | fatal =>
    have ht : (processGitRepo cfg env path org name s).trace =
        .call path org name :: (repo cfg env org name s).trace := by
      simp [processGitRepo, Result.andThen, hr]
    have ho : (processGitRepo cfg env path org name s).out = .fatal := by
      simp [processGitRepo, Result.andThen, hr]
    rw [ht, hcall _ rfl, hrc, ho]
    exact ⟨by omega, fun h => by simp at h⟩
  | ret r =>
    by_cases hid : r.ID = 0
    · have hoc := countP_isMigrate_organization cfg env org (repo cfg env org name s).forge
      have ho2 : (organization cfg env org (repo cfg env org name s).forge).trace.countP
          (isMigrate201 cfg) = 0 := Nat.le_zero.mp (hoc ▸ countP_isMigrate201_le cfg _)
      cases ho : (organization cfg env org (repo cfg env org name s).forge).out with
      | fatal =>
        have ht : (processGitRepo cfg env path org name s).trace =
            .call path org name :: ((repo cfg env org name s).trace ++
              (organization cfg env org (repo cfg env org name s).forge).trace) := by
          simp [processGitRepo, Result.andThen, hr, hid, ho]
        have hout : (processGitRepo cfg env path org name s).out = .fatal := by
          simp [processGitRepo, Result.andThen, hr, hid, ho]
        rw [ht, hcall _ rfl, List.countP_append, hrc, hoc, hout]
        exact ⟨by omega, fun h => by simp at h⟩
      | ret o =>
        have hp := httpPost_trace cfg env env.unmarshalRepo "/api/v1/repos/migrate"
          (.migrate { CloneAddr := path, RepoName := name, UID := o.ID }) ({} : RepoResponse)
          (organization cfg env org (repo cfg env org name s).forge).forge
        have ht : (processGitRepo cfg env path org name s).trace =
            .call path org name :: ((repo cfg env org name s).trace ++
              ((organization cfg env org (repo cfg env org name s).forge).trace ++
                (httpPost cfg env env.unmarshalRepo "/api/v1/repos/migrate"
                  (.migrate { CloneAddr := path, RepoName := name, UID := o.ID })
                  ({} : RepoResponse)
                  (organization cfg env org (repo cfg env org name s).forge).forge).trace)) := by
          cases hq : (httpPost cfg env env.unmarshalRepo "/api/v1/repos/migrate"
              (.migrate { CloneAddr := path, RepoName := name, UID := o.ID })
              ({} : RepoResponse)
              (organization cfg env org (repo cfg env org name s).forge).forge).out with
          | fatal => simp [processGitRepo, Result.andThen, hr, hid, ho, hq]
          | ret res =>
            rcases res with ⟨e2, c⟩
            cases e2 <;> simp [processGitRepo, Result.andThen, hr, hid, ho, hq]
        have hm : ∀ rep, isMigrate cfg (.http (postRequest cfg "/api/v1/repos/migrate"
            (.migrate { CloneAddr := path, RepoName := name, UID := o.ID })) rep) = true := by
          intro rep
          simp [isMigrate, isMigrateRequest, postRequest]
        refine ⟨?_, fun hout => ?_⟩
        · rw [ht, hcall _ rfl, List.countP_append, List.countP_append, hrc, hoc, hp.1]
          simp [List.countP_cons, hm]
        · cases hq : (httpPost cfg env env.unmarshalRepo "/api/v1/repos/migrate"
              (.migrate { CloneAddr := path, RepoName := name, UID := o.ID })
              ({} : RepoResponse)
              (organization cfg env org (repo cfg env org name s).forge).forge).out with
          | fatal => simp [processGitRepo, Result.andThen, hr, hid, ho, hq] at hout
          | ret res =>
            rcases res with ⟨e2, c⟩
            cases e2 with
            | some err => simp [processGitRepo, Result.andThen, hr, hid, ho, hq] at hout
            | none =>
              obtain ⟨resp, hpt, hcode⟩ := httpPost_none cfg env env.unmarshalRepo
                "/api/v1/repos/migrate" _ _ c _ hq
              rw [ht, hcall _ rfl, hcall _ rfl, List.countP_append, List.countP_append,
                List.countP_append, List.countP_append, hrc, hoc, hr2, ho2, hpt]
              have hm2 : isMigrate201 cfg (.http (postRequest cfg "/api/v1/repos/migrate"
                  (.migrate { CloneAddr := path, RepoName := name, UID := o.ID }))
                  (.response resp)) = true := by
                simp [isMigrate201, isMigrateRequest, postRequest, hcode]
              simp [List.countP_cons, hm, hm2]
    · have ht : (processGitRepo cfg env path org name s).trace =
          .call path org name :: (repo cfg env org name s).trace := by
        simp [processGitRepo, Result.andThen, hr, hid]
      rw [ht, hcall _ rfl, hcall _ rfl, hrc, hr2]
      exact ⟨by omega, fun _ => rfl⟩

end Migrations

section Walks

variable {σ : Type}

theorem countFor_nil (p : Event → Bool) (org name : String) (cur : Bool) :
    countFor p org name cur [] = 0 := by
  cases cur <;> rfl

/-- Against a forge that remembers a migration of `(org, name)`, the run of a
plan holds at most one migrate POST for the pair; if the pair is present at the
start it holds none; and if one was answered with 201 the pair is present at
the end. -/
theorem runPlan_migrates (cfg : Config) (env : Env σ) (org name : String)
    (present : σ → Prop) (hf : Remembers cfg env org name present) (plan : List Step)
    (s : σ) (cur : Bool) :
    countFor (isMigrate cfg) org name cur (runPlan cfg env plan s).trace ≤ 1 ∧
    countFor (isMigrate201 cfg) org name cur (runPlan cfg env plan s).trace ≤
      countFor (isMigrate cfg) org name cur (runPlan cfg env plan s).trace ∧
    (present s →
      countFor (isMigrate cfg) org name cur (runPlan cfg env plan s).trace = 0 ∧
        present (runPlan cfg env plan s).forge) ∧
    (countFor (isMigrate201 cfg) org name cur (runPlan cfg env plan s).trace = 1 →
      present (runPlan cfg env plan s).forge) := by
  induction plan generalizing s cur with
  | nil => simp [runPlan, countFor]
  | cons st rest ih =>
    cases st with
    | stop => simp [runPlan, countFor]
    | trigger path o n =>
      have hcnt := processGitRepo_migrate_count cfg env path o n s
      have h1 := fun t => countFor_processGitRepo cfg env (isMigrate cfg)
        (fun _ _ _ => rfl) org name cur path o n s t
      have h2 := fun t => countFor_processGitRepo cfg env (isMigrate201 cfg)
        (fun _ _ _ => rfl) org name cur path o n s t
      have hle := countP_isMigrate201_le cfg (processGitRepo cfg env path o n s).trace
      have hinv : present s → present (processGitRepo cfg env path o n s).forge :=
        processGitRepo_forge_inv cfg env present hf.sticky path o n s
      have ih2 := ih (processGitRepo cfg env path o n s).forge
        (decide (o = org) && decide (n = name))
      have hrest : present (processGitRepo cfg env path o n s).forge →
          present (runPlan cfg env rest (processGitRepo cfg env path o n s).forge).forge :=
        runPlan_forge_inv cfg env present hf.sticky rest _
      by_cases hm : (decide (o = org) && decide (n = name)) = true
      · have hon : o = org ∧ n = name := by simpa using hm
        have hpres : 1 ≤ (processGitRepo cfg env path o n s).trace.countP (isMigrate201 cfg) →
            present (processGitRepo cfg env path o n s).forge := by
          intro hge
          obtain ⟨e, he, hpe⟩ := List.countP_pos_iff.mp hge
          rw [hon.1, hon.2] at he ⊢
          exact hf.migrated s path ⟨e, he, hpe⟩
        have hlook : present s → (processGitRepo cfg env path o n s).out = .ret () ∧
            (processGitRepo cfg env path o n s).trace.countP (isMigrate cfg) = 0 := by
          intro hs
          obtain ⟨r, hr, hid⟩ := hf.lookup s hs
          rw [hon.1, hon.2]
          have ht : (processGitRepo cfg env path org name s).trace =
              .call path org name :: (repo cfg env org name s).trace := by
            simp [processGitRepo, Result.andThen, hr, hid]
          have ho : (processGitRepo cfg env path org name s).out = .ret () := by
            simp [processGitRepo, Result.andThen, hr, hid]
          refine ⟨ho, ?_⟩
          rw [ht]
          simp [List.countP_cons, isMigrate, countP_isMigrate_repo]
        cases hr : (processGitRepo cfg env path o n s).out with
        | fatal =>
          have e1 := h1 []
          have e2 := h2 []
          rw [List.append_nil, countFor_nil, if_pos hm, Nat.add_zero] at e1 e2
          rw [show runPlan cfg env (.trigger path o n :: rest) s =
            ⟨.fatal, (processGitRepo cfg env path o n s).forge,
              (processGitRepo cfg env path o n s).trace⟩ from andThen_fatal _ _ hr]
          simp only
          rw [e1, e2]
          refine ⟨hcnt.1, hle, fun hs => ?_, fun h => hpres (by omega)⟩
          have hc := (hlook hs).1
          rw [hr] at hc
          cases hc
        | ret u =>
          have e1 := h1 (runPlan cfg env rest (processGitRepo cfg env path o n s).forge).trace
          have e2 := h2 (runPlan cfg env rest (processGitRepo cfg env path o n s).forge).trace
          rw [if_pos hm] at e1 e2
          rw [show runPlan cfg env (.trigger path o n :: rest) s =
            ⟨(runPlan cfg env rest (processGitRepo cfg env path o n s).forge).out,
              (runPlan cfg env rest (processGitRepo cfg env path o n s).forge).forge,
              (processGitRepo cfg env path o n s).trace ++
                (runPlan cfg env rest (processGitRepo cfg env path o n s).forge).trace⟩
            from andThen_ret _ _ u hr]
          simp only
          rw [e1, e2]
          have hk := hcnt.2 hr
          refine ⟨?_, ?_, fun hs => ?_, fun h => ?_⟩
          · by_cases hz : (processGitRepo cfg env path o n s).trace.countP (isMigrate cfg) = 0
            · have := ih2.1
              omega
            · have hp := hpres (by omega)
              have := (ih2.2.2.1 hp).1
              have := hcnt.1
              omega
          · have := ih2.2.1
            omega
          · have hz := (hlook hs).2
            have hq := ih2.2.2.1 (hinv hs)
            exact ⟨by omega, hq.2⟩
          · by_cases hz : 1 ≤ (processGitRepo cfg env path o n s).trace.countP (isMigrate201 cfg)
            · exact hrest (hpres hz)
            · exact ih2.2.2.2 (by omega)
      · cases hr : (processGitRepo cfg env path o n s).out with
        | fatal =>
          have e1 := h1 []
          have e2 := h2 []
          rw [List.append_nil, countFor_nil, if_neg hm, Nat.add_zero] at e1 e2
          rw [show runPlan cfg env (.trigger path o n :: rest) s =
            ⟨.fatal, (processGitRepo cfg env path o n s).forge,
              (processGitRepo cfg env path o n s).trace⟩ from andThen_fatal _ _ hr]
          simp only
          rw [e1, e2]
          exact ⟨by omega, by omega, fun hs => ⟨rfl, hinv hs⟩, fun h => by omega⟩
        | ret u =>
          have e1 := h1 (runPlan cfg env rest (processGitRepo cfg env path o n s).forge).trace
          have e2 := h2 (runPlan cfg env rest (processGitRepo cfg env path o n s).forge).trace
          rw [if_neg hm, Nat.zero_add] at e1 e2
          rw [show runPlan cfg env (.trigger path o n :: rest) s =
            ⟨(runPlan cfg env rest (processGitRepo cfg env path o n s).forge).out,
              (runPlan cfg env rest (processGitRepo cfg env path o n s).forge).forge,
              (processGitRepo cfg env path o n s).trace ++
                (runPlan cfg env rest (processGitRepo cfg env path o n s).forge).trace⟩
            from andThen_ret _ _ u hr]
          simp only
          rw [e1, e2]
          exact ⟨ih2.1, ih2.2.1, fun hs => ih2.2.2.1 (hinv hs), ih2.2.2.2⟩

end Walks

/-- The flaky forge remembers the migration of `neworg/proj`. -/
theorem flaky_remembers :
    Remembers demoCfg flakyEnv "neworg" "proj" (fun s => s = Flaky.migrated) := by
  refine ⟨?_, ?_, ?_⟩
  · intro s req hs
    subst hs
    show (flakyRoundTrip Flaky.migrated req).2 = Flaky.migrated
    unfold flakyRoundTrip
    rcases req with ⟨m, url, u, p, ct, b⟩
    cases m with
    | GET => simp only; split_ifs <;> rfl
    | POST =>
      cases b with
      | none => rfl
      | some pl => cases pl <;> rfl
  · intro s hs
    subst hs
    exact ⟨{ ID := 5 }, by decide, by decide⟩
  · intro s path h
    cases s with
    | migrated => rfl
    | failedOnce => rfl
    | fresh =>
      exfalso
      have ht : (processGitRepo demoCfg flakyEnv path "neworg" "proj" Flaky.fresh).trace =
          [.call path "neworg" "proj",
            .http (getRequest demoCfg (repoURI "neworg" "proj"))
              (.response ⟨404, "404 Not Found", "", false⟩),
            .http (getRequest demoCfg (orgURI "neworg")) (.response ⟨200, "200 OK", "7", false⟩),
            .http (postRequest demoCfg "/api/v1/repos/migrate"
                (.migrate { CloneAddr := path, RepoName := "proj", UID := 7 }))
              (.response ⟨500, "500 Internal Server Error", "", false⟩)] := rfl
      rw [ht] at h
      obtain ⟨e, he, hp⟩ := h
      simp only [List.mem_cons, List.mem_singleton, List.not_mem_nil, or_false] at he
      rcases he with rfl | rfl | rfl | rfl <;> simp [isMigrate201, isMigrateRequest] at hp

/-- C2, as stated, fails: the flaky forge remembers a migration once it has
answered one with 201, yet a walk over `/srv/neworg/proj.git` followed by a
re-run issues two migrate POSTs for `neworg/proj`: the first is answered with
500 and ends the first walk, the re-run finds the repository still absent and
issues the second. -/
theorem migrate_posted_twice_across_rerun :
    Remembers demoCfg flakyEnv "neworg" "proj" (fun s => s = Flaky.migrated) ∧
    countFor (isMigrate demoCfg) "neworg" "proj" false
      ((process demoCfg flakyEnv "/srv" Flaky.fresh).trace ++
        (process demoCfg flakyEnv "/srv"
          (process demoCfg flakyEnv "/srv" Flaky.fresh).forge).trace) = 2 ∧
    (process demoCfg flakyEnv "/srv" Flaky.fresh).out = .fatal :=
  ⟨flaky_remembers, by decide, by decide⟩

/-- C2, amended: against a forge in which a migrate POST for `(org, name)`
answered with 201 makes every later lookup of the pair return a record with a
non-zero id, one walk issues at most one migrate POST for the pair, a walk and
its re-run together issue at most one migrate POST for the pair that the forge
answers with 201, and after such a POST the re-run issues no migrate POST for
the pair at all. -/
theorem migrate_succeeds_at_most_once {σ : Type} (cfg : Config) (env : Env σ)
    (root org name : String) (present : σ → Prop) (s : σ)
    (hf : Remembers cfg env org name present) :
    countFor (isMigrate cfg) org name false (process cfg env root s).trace ≤ 1 ∧
    countFor (isMigrate201 cfg) org name false
      ((process cfg env root s).trace ++
        (process cfg env root (process cfg env root s).forge).trace) ≤ 1 ∧
    (countFor (isMigrate201 cfg) org name false (process cfg env root s).trace = 1 →
      countFor (isMigrate cfg) org name false
        (process cfg env root (process cfg env root s).forge).trace = 0) := by
  cases hroot : env.readDir root with
  | none =>
    have hp : ∀ t, process cfg env root t = ⟨.fatal, t, []⟩ := by
      intro t
      simp [process, hroot]
    simp [hp, countFor_nil]
  | some files =>
    have hp : ∀ t, process cfg env root t =
        runPlan cfg env (rootPlan env.readDir root files) t :=
      fun t => process_eq_runPlan cfg env root files t hroot
    simp only [hp]
    have B1 := runPlan_migrates cfg env org name present hf
      (rootPlan env.readDir root files) s false
    have B2 := runPlan_migrates cfg env org name present hf
      (rootPlan env.readDir root files)
      (runPlan cfg env (rootPlan env.readDir root files) s).forge false
    obtain ⟨c2, hc2⟩ := countFor_append (isMigrate201 cfg) org name false
      (runPlan cfg env (rootPlan env.readDir root files) s).trace
      (runPlan cfg env (rootPlan env.readDir root files)
        (runPlan cfg env (rootPlan env.readDir root files) s).forge).trace
    rw [hc2, countFor_runPlan_flag cfg env (isMigrate201 cfg) org name c2]
    refine ⟨B1.1, ?_, fun h => (B2.2.2.1 (B1.2.2.2 h)).1⟩
    by_cases h1 : countFor (isMigrate201 cfg) org name false
        (runPlan cfg env (rootPlan env.readDir root files) s).trace = 1
    · have h0 := (B2.2.2.1 (B1.2.2.2 h1)).1
      have := B2.2.1
      omega
    · have := B1.1
      have := B1.2.1
      have := B2.1
      have := B2.2.1
      omega

/-- C2 amended, at the flaky forge: over the walk and its re-run one migrate
POST is answered with 201, and each walk issues at most one migrate POST. -/
theorem migrate_succeeds_at_most_once_witness :
    countFor (isMigrate demoCfg) "neworg" "proj" false
      (process demoCfg flakyEnv "/srv" Flaky.fresh).trace ≤ 1 ∧
    countFor (isMigrate201 demoCfg) "neworg" "proj" false
      ((process demoCfg flakyEnv "/srv" Flaky.fresh).trace ++
        (process demoCfg flakyEnv "/srv"
          (process demoCfg flakyEnv "/srv" Flaky.fresh).forge).trace) ≤ 1 :=
  have h := migrate_succeeds_at_most_once demoCfg flakyEnv "/srv" "neworg" "proj"
    (fun s => s = Flaky.migrated) Flaky.fresh flaky_remembers
  ⟨h.1, h.2.1⟩

end GiteaMigrate
